import Mathlib

/-!
# Telepresence: release reconciliation and intercept state

A shallow embedding of

* `pkg/install/helm/install.go` (`getValues`, `timedRun`, `installNew`, `upgradeExisting`,
  `uninstallExisting`, `isInstalled`, `ensureIsInstalled`, `ensureIsDeleted`), and
* `pkg/client/cli/intercept_state.go` (`interceptMessage`, `EnsureState`, `DeactivateState`),

followed by theorems about them.

Conventions.  A Go `error` result is an `Option GoError` (`none` is `nil`).  The cluster, the
release store and the RPC peer are external: their answers are fields of an environment record,
and the calls issued to them are recorded in an explicit state that every operation threads
through.  Logging is omitted.
-/

set_option autoImplicit false

namespace Telepresence

/-! ## Go runtime pieces used by both files -/

/-- Go `error` values: `new` is `errors.New` (or an error produced by an external collaborator),
`wrap` is `fmt.Errorf` with a `%w` verb (the text is the complete formatted message), `user` is
`errcat.User.Newf`. -/
inductive GoError where
  | new (msg : String)
  | wrap (msg : String) (inner : GoError)
  | user (msg : String)
  deriving DecidableEq, Repr

/-- The `Error()` method: the message text. -/
def GoError.Error : GoError → String
  | .new msg => msg
  | .wrap msg _ => msg
  | .user msg => msg

/-- The `Unwrap()` method: the error wrapped by `%w`, if any. -/
def GoError.Unwrap : GoError → Option GoError
  | .wrap _ inner => some inner
  | _ => none

/-- Lower-case hexadecimal digit of `n % 16` (`lowerhex` of `strconv`). -/
def lowerhex (n : Nat) : Char :=
  "0123456789abcdef".data.getD (n % 16) '0'

/-- Digits of `n` in base 16, most significant first, exactly `width` of them. -/
def hexDigits : Nat → Nat → List Char
  | 0, _ => []
  | width + 1, n => hexDigits width (n / 16) ++ [lowerhex n]

/-- The function `strconv.IsPrint`.  For ASCII it is the range test of the library; for the rest
of Unicode the library consults tables, which are taken as the parameter `unicodePrint`. -/
def IsPrint (unicodePrint : Char → Bool) (r : Char) : Bool :=
  if r.toNat < 128 then decide (32 ≤ r.toNat) && decide (r.toNat < 127) else unicodePrint r

/-- The double quote character. -/
def dquote : Char := Char.ofNat 34

/-- The backslash character. -/
def backslash : Char := Char.ofNat 92

/-- The function `appendEscapedRune` of `strconv` with quote `"` (neither ASCII-only nor
graphic-only), returning the characters appended for the rune `r`. -/
def appendEscapedRune (unicodePrint : Char → Bool) (r : Char) : List Char :=
  if r = dquote ∨ r = backslash then [backslash, r]
  else if IsPrint unicodePrint r then [r]
  else if r.toNat = 7 then [backslash, 'a']
  else if r.toNat = 8 then [backslash, 'b']
  else if r.toNat = 12 then [backslash, 'f']
  else if r.toNat = 10 then [backslash, 'n']
  else if r.toNat = 13 then [backslash, 'r']
  else if r.toNat = 9 then [backslash, 't']
  else if r.toNat = 11 then [backslash, 'v']
  else if r.toNat < 32 ∨ r.toNat = 127 then backslash :: 'x' :: hexDigits 2 r.toNat
  else if r.toNat < 65536 then backslash :: 'u' :: hexDigits 4 r.toNat
  else backslash :: 'U' :: hexDigits 8 r.toNat

/-- The function `strconv.Quote`, which is what the verb `%q` prints for a string. -/
def Quote (unicodePrint : Char → Bool) (s : String) : String :=
  ⟨dquote :: (s.data.flatMap (appendEscapedRune unicodePrint)) ++ [dquote]⟩

/-- The function `unicode.IsSpace`. -/
def IsSpace (r : Char) : Bool :=
  let n := r.toNat
  decide (9 ≤ n ∧ n ≤ 13) || n == 32 || n == 133 || n == 160 || n == 5760 ||
    decide (8192 ≤ n ∧ n ≤ 8202) || n == 8232 || n == 8233 || n == 8239 || n == 8287 || n == 12288

/-- The function `strings.TrimSpace`: leading and trailing white space removed. -/
def TrimSpace (s : String) : String :=
  ⟨((s.data.dropWhile IsSpace).reverse.dropWhile IsSpace).reverse⟩

/-- The function `strings.TrimPrefix`. -/
def TrimPrefix (s pre : String) : String :=
  if pre.data.isPrefixOf s.data then ⟨s.data.drop pre.data.length⟩ else s

/-- The function `strings.Split` for a one-character separator, on character lists. -/
def splitChars (sep : Char) : List Char → List (List Char)
  | [] => [[]]
  | c :: cs =>
    if c = sep then [] :: splitChars sep cs
    else match splitChars sep cs with
      | [] => [[c]]
      | p :: ps => (c :: p) :: ps

/-- The function `strings.Split` for a one-character separator. -/
def Split (s : String) (sep : Char) : List String :=
  (splitChars sep s.data).map String.mk

/-- `s` occurs in `t` as a contiguous run of characters (`strings.Contains t s`). -/
def Contains (t s : String) : Prop := s.data <:+: t.data

instance (t s : String) : Decidable (Contains t s) := by
  unfold Contains; infer_instance

/-! ## Value trees (`map[string]any`) -/

/-- A value of a values tree that is not itself a table. -/
inductive Scalar where
  | null
  | bool (b : Bool)
  | int (i : Int)
  | str (s : String)
  | raw (json : String)
  deriving DecidableEq, Repr

mutual
/-- A value stored in a values tree: a scalar or a nested table. -/
inductive Value where
  | leaf (s : Scalar)
  | table (t : Table)
  deriving DecidableEq
/-- A table `map[string]any` as an association list; the first entry for a key is the binding. -/
inductive Table where
  | nil
  | cons (key : String) (val : Value) (rest : Table)
  deriving DecidableEq
end

/-- Map lookup `t[key]`. -/
def Table.get? : Table → String → Option Value
  | .nil, _ => none
  | .cons k v rest, key => if k = key then some v else rest.get? key

/-- Map assignment `t[key] = v`. -/
def Table.set : Table → String → Value → Table
  | .nil, key, v => .cons key v .nil
  | .cons k x rest, key, v =>
    if k = key then .cons k v rest else .cons k x (rest.set key v)

/-- The value found by following a key path from a value. -/
def Value.getPath : Value → List String → Option Value
  | v, [] => some v
  | .leaf _, _ :: _ => none
  | .table t, k :: ks =>
    match t.get? k with
    | none => none
    | some v => v.getPath ks

/-- Whether a value is a table (`istable`). -/
def Value.istable : Value → Bool
  | .table _ => true
  | .leaf _ => false

mutual
/-- The keys of every table inside the value are pairwise distinct, as in a Go map. -/
def Value.WellFormed : Value → Prop
  | .leaf _ => True
  | .table t => t.WellFormed
/-- The keys of the table and of every table inside it are pairwise distinct. -/
def Table.WellFormed : Table → Prop
  | .nil => True
  | .cons k v rest => rest.get? k = none ∧ v.WellFormed ∧ rest.WellFormed
end

mutual
/-- Modelled from the spec: the body of `chartutil.CoalesceTables` belongs to the Helm library and
is missing from the sources.  This is the value kept at a key that both trees bind: two tables are
merged recursively, and in every other case the override (`dv`) wins. -/
def coalesceValue (dv : Value) : Value → Value
  | .table ts =>
    match dv with
    | .table td => .table (CoalesceTables td ts)
    | .leaf _ => dv
  | .leaf _ => dv
/-- Modelled from the spec: the body of `chartutil.CoalesceTables` belongs to the Helm library and
is missing from the sources.  Per the spec the override values `dst` are deep-merged over the
computed defaults `src`, and override keys win on conflict: every key of `src` that `dst` lacks
is added to `dst`, and a key bound in both keeps the value given by `coalesceValue`. -/
def CoalesceTables (dst : Table) : Table → Table
  | .nil => dst
  | .cons key val rest =>
    CoalesceTables
      (match dst.get? key with
        | none => dst.set key val
        | some dv => dst.set key (coalesceValue dv val))
      rest
end

/-! ## `pkg/install/helm/install.go` -/

namespace helm

/-- Time spans and clock readings in nanoseconds, as `time.Duration`. -/
abbrev Duration := Int

/-- The constant `time.Second`. -/
def Second : Nat := 1000000000

/-- The constant `trafficManagerReleaseName`. -/
def trafficManagerReleaseName : String := "traffic-manager"

/-- The constant `crdReleaseName`. -/
def crdReleaseName : String := "telepresence-crds"

/-- The statuses of a release (`release.Status` of the Helm library). -/
inductive Status where
  | Unknown
  | Deployed
  | Uninstalled
  | Superseded
  | Failed
  | Uninstalling
  | PendingInstall
  | PendingUpgrade
  | PendingRollback
  deriving DecidableEq, Repr

/-- The method `Status.IsPending` of the Helm library. -/
def Status.IsPending (st : Status) : Bool :=
  st == .PendingInstall || st == .PendingUpgrade || st == .PendingRollback

/-- The part `release.Info` of a release that the code reads. -/
structure Info where
  Status : Status
  Description : String
  deriving DecidableEq, Repr

/-- A release as returned by the locator (`release.Release`). -/
structure Release where
  Name : String
  Namespace : String
  Version : Nat
  Info : Info
  deriving DecidableEq, Repr

/-- The handle `action.Configuration`, bound to the namespace it was initialised for. -/
structure Configuration where
  Namespace : String
  deriving DecidableEq, Repr

/-- Modelled from the spec: the type `connector.HelmRequest_Type` is declared outside the
sources; the spec lists the lifecycle verbs Install, Upgrade and Uninstall. -/
inductive HelmRequestType where
  | INSTALL
  | UPGRADE
  | UNINSTALL
  deriving DecidableEq, Repr

/-- The fields of `connector.HelmRequest` that the code reads. -/
structure HelmRequest where
  Type_ : HelmRequestType
  ValuesJson : String
  ReuseValues : Bool
  ResetValues : Bool
  Crds : Bool
  deriving DecidableEq, Repr

/-- A mutating call issued to the release store, with the arguments the code sets:
`install.Run` (release name, namespace, values), `upgrade.Run` (release name, namespace,
`ResetValues`, `ReuseValues`, values) and `uninstall.Run` (release name), each on the
configuration it was created from. -/
inductive Call where
  | install (helmConfig : Configuration) (ReleaseName Namespace : String) (values : Table)
  | upgrade (helmConfig : Configuration) (releaseName Namespace : String)
      (ResetValues ReuseValues : Bool) (values : Table)
  | uninstall (helmConfig : Configuration) (releaseName : String)
  deriving DecidableEq

/-- The three kinds of mutating call. -/
inductive CallKind where
  | install
  | upgrade
  | uninstall
  deriving DecidableEq, Repr

/-- The kind of a call. -/
def Call.kind : Call → CallKind
  | .install _ _ _ _ => .install
  | .upgrade _ _ _ _ _ _ => .upgrade
  | .uninstall _ _ => .uninstall

/-- The values tree handed over by a call, if it carries one. -/
def Call.values? : Call → Option Table
  | .install _ _ _ values => some values
  | .upgrade _ _ _ _ _ values => some values
  | .uninstall _ _ => none

/-- What `getValues` reads from `client.GetConfig(ctx)` and `client.Version()`.
`MaxReceiveSize` is `none` when the quantity `IsZero`, otherwise its `String()`;
`AppProtocolStrategy` is `none` when the strategy is `k8sapi.Http2Probe`, otherwise its
`String()`. -/
structure ClientConfig where
  Version : String
  Registry : String
  AgentImage : String
  WebhookRegistry : String
  SystemaHost : String
  SystemaPort : String
  MaxReceiveSize : Option String
  AppProtocolStrategy : Option String
  TelepresenceAPIPort : Int

/-- The external collaborators of the installer.  Each field is the answer of a collaborator
whose body is outside the sources:
* `helmInit ns` is the error of `helmConfig.Init` for namespace `ns`;
* `getHelmRelease n releaseName helmConfig` is the answer of the `n`-th lookup made since the
  start (lookups are numbered because the cluster changes between them);
* `pollLatency n` is the time the `n`-th lookup takes on the clock, in nanoseconds;
* `timeoutHelm` is `Timeouts.Get(client.TimeoutHelm)`;
* `Run earlier call` is the error returned by the `Run` method of the action for `call`, issued
  after the calls `earlier`;
* `deadlineFirst earlier call` tells whether the deadline of `timedRun` fires before that `Run`
  returns, and `ctxErr` is the `ctx.Err()` seen then;
* `CheckTimeout`, `importLegacy`, `releaseVer`, `jsonUnmarshal` and `unicodePrint` stand for
  `client.CheckTimeout`, `importLegacy`, `releaseVer`, `json.Unmarshal` into a
  `map[string]any`, and the Unicode tables behind `%q`. -/
structure Env where
  config : ClientConfig
  helmInit : String → Option GoError
  getHelmRelease : Nat → String → Configuration → Except GoError (Option Release)
  pollLatency : Nat → Nat
  timeoutHelm : Duration
  Run : List Call → Call → Option GoError
  deadlineFirst : List Call → Call → Bool
  ctxErr : GoError
  CheckTimeout : GoError → GoError
  importLegacy : String → String → Option GoError
  releaseVer : Release → String
  jsonUnmarshal : String → Except GoError Table
  unicodePrint : Char → Bool

/-- The state threaded through the installer: the reading `now` of the clock in nanoseconds, the
number `polls` of lookups made so far, and the mutating calls issued so far, oldest first. -/
structure World where
  now : Nat
  polls : Nat
  calls : List Call
  deriving DecidableEq

/-- The function `getHelmConfig`. -/
def getHelmConfig (env : Env) (ns : String) : Except GoError Configuration :=
  match env.helmInit ns with
  | some err => .error err
  | none => .ok ⟨ns⟩

/-- The function `getValues`. -/
def getValues (cfg : ClientConfig) : Table :=
  let imageRegistry := cfg.Registry
  let imageTag := TrimPrefix cfg.Version "v"
  let values : Table :=
    .cons "image" (.table
        (.cons "registry" (.leaf (.str imageRegistry))
          (.cons "tag" (.leaf (.str imageTag)) .nil)))
      (.cons "systemaHost" (.leaf (.str cfg.SystemaHost))
        (.cons "systemaPort" (.leaf (.str cfg.SystemaPort)) .nil))
  let values :=
    match cfg.MaxReceiveSize with
    | some size => values.set "grpc" (.table (.cons "maxReceiveSize" (.leaf (.str size)) .nil))
    | none => values
  let wai := cfg.AgentImage
  let wr := cfg.WebhookRegistry
  let values :=
    if wai ≠ "" ∨ wr ≠ "" then
      let image : Table := .nil
      let image :=
        if wai ≠ "" then
          let parts := Split wai ':'
          let name := if parts.length > 1 then parts.getD 0 "" else wai
          let tag := if parts.length > 1 then parts.getD 1 "" else ""
          (image.set "name" (.leaf (.str name))).set "tag" (.leaf (.str tag))
        else image
      let image := if wr ≠ "" then image.set "registry" (.leaf (.str wr)) else image
      values.set "agent" (.table (.cons "image" (.table image) .nil))
    else values
  let values :=
    match cfg.AppProtocolStrategy with
    | some apc =>
      values.set "agentInjector" (.table (.cons "appProtocolStrategy" (.leaf (.str apc)) .nil))
    | none => values
  let values :=
    if cfg.TelepresenceAPIPort ≠ 0 then
      values.set "telepresenceAPI"
        (.table (.cons "port" (.leaf (.int cfg.TelepresenceAPIPort)) .nil))
    else values
  values

/-- The function `timedRun`, for a callback whose only effect is the `Run` of `call`.  The
callback is started on its own goroutine whatever happens, so the call is always issued; the
result is the timeout error when the deadline fires first, and the result of the run (passed
through `CheckTimeout` when it is an error) otherwise. -/
def timedRun (env : Env) (call : Call) (w : World) : World × Option GoError :=
  let w1 := { w with calls := w.calls ++ [call] }
  if env.deadlineFirst w.calls call then (w1, some (env.CheckTimeout env.ctxErr))
  else
    match env.Run w.calls call with
    | some err => (w1, some (env.CheckTimeout err))
    | none => (w1, none)

/-- The function `installNew`. -/
def installNew (env : Env) (helmConfig : Configuration) (releaseName ns : String)
    (values : Table) (w : World) : World × Option GoError :=
  timedRun env (.install helmConfig releaseName ns values) w

/-- The function `upgradeExisting`. -/
def upgradeExisting (env : Env) (helmConfig : Configuration) (releaseName ns : String)
    (resetValues reuseValues : Bool) (values : Table) (w : World) : World × Option GoError :=
  timedRun env (.upgrade helmConfig releaseName ns resetValues reuseValues values) w

/-- The function `uninstallExisting`; its parameter `ns` is only logged. -/
def uninstallExisting (env : Env) (helmConfig : Configuration) (releaseName _ns : String)
    (w : World) : World × Option GoError :=
  timedRun env (.uninstall helmConfig releaseName) w

/-- What `isInstalled` returns besides the state: the triple `(nil, nil, err)` is `.error err`,
and `(existing, helmConfig, nil)` is `.ok (existing, helmConfig)`. -/
abbrev Located := Except GoError (Option Release × Configuration)

/-- The loop `for time.Since(transitionStart) < timeout` of `isInstalled`.  Every lookup takes
`pollLatency` on the clock and every `SleepWithContext` one second.  `fuel` bounds the number of
iterations; `none` means the fuel ran out. -/
def isInstalledLoop (env : Env) (releaseName : String) (helmConfig : Configuration)
    (transitionStart : Nat) (timeout : Duration) (fuel : Nat) (w : World)
    (existing : Option Release) : Option (World × Located) :=
  if (w.now : Int) - (transitionStart : Int) < timeout then
    match fuel with
    | 0 => none
    | fuel + 1 =>
      let w1 : World := { w with now := w.now + env.pollLatency w.polls, polls := w.polls + 1 }
      match env.getHelmRelease w.polls releaseName helmConfig with
      | .error err => some (w1, .error err)
      | .ok none => some (w1, .ok (none, helmConfig))
      | .ok (some rel) =>
        let st := rel.Info.Status
        if !(st.IsPending || st == Status.Uninstalling) then
          some (w1, .ok (some rel, helmConfig))
        else
          isInstalledLoop env releaseName helmConfig transitionStart timeout fuel
            { w1 with now := w1.now + Second } (some rel)
  else some (w, .ok (existing, helmConfig))

/-- The function `isInstalled`.  The loop gets one unit of fuel per started second of the
timeout, which is what it can use up (`isInstalled_terminates`). -/
def isInstalled (env : Env) (releaseName ns : String) (w : World) : Option (World × Located) :=
  match getHelmConfig env ns with
  | .error err => some (w, .error (.wrap ("failed to initialize helm config: " ++ err.Error) err))
  | .ok helmConfig =>
    let transitionStart := w.now
    let timeout := env.timeoutHelm
    isInstalledLoop env releaseName helmConfig transitionStart timeout
      (timeout.toNat / Second + 1) w none

/-- Lines 254 to 263 of `ensureIsInstalled`: the values handed to install and upgrade. -/
def resolveValues (env : Env) (req : HelmRequest) : Except GoError Table :=
  if req.ValuesJson.length > 0 then
    match env.jsonUnmarshal req.ValuesJson with
    | .error err => .error (.wrap ("unable to parse values JSON: " ++ err.Error) err)
    | .ok vals => .ok (CoalesceTables vals (getValues env.config))
  else .ok (getValues env.config)

/-- The function `ensureIsInstalled`.  The arguments of `uninstallExisting` are in the order in
which the source passes them. -/
def ensureIsInstalled (env : Env) (releaseName ns : String) (req : HelmRequest) (w : World) :
    Option (World × Option GoError) :=
  match isInstalled env releaseName ns w with
  | none => none
  | some (w, .error err) =>
    some (w, some (.wrap ("err detecting " ++ releaseName ++ ": " ++ err.Error) err))
  | some (w, .ok (existing, helmConfig)) =>
    let cleaned : World × Except GoError (Option Release) :=
      match existing with
      | some rel =>
        if rel.Info.Status ≠ Status.Deployed then
          match uninstallExisting env helmConfig ns releaseName w with
          | (w, some err) =>
            (w, .error (.wrap ("failed to clean up leftover release history: " ++ err.Error) err))
          | (w, none) => (w, .ok none)
        else (w, .ok (some rel))
      | none => (w, .ok none)
    match cleaned with
    | (w, .error err) => some (w, some err)
    | (w, .ok existing) =>
      match resolveValues env req with
      | .error err => some (w, some err)
      | .ok vals =>
        match existing with
        | none =>
          if releaseName = trafficManagerReleaseName then
            match env.importLegacy releaseName ns with
            | some _ => some (w, none)
            | none => some (installNew env helmConfig releaseName ns vals w)
          else some (installNew env helmConfig releaseName ns vals w)
        | some rel =>
          if req.Type_ = HelmRequestType.UPGRADE then
            some (upgradeExisting env helmConfig releaseName ns req.ResetValues req.ReuseValues
              vals w)
          else
            some (w, some (.user (releaseName ++ " version " ++
              Quote env.unicodePrint (env.releaseVer rel) ++
              " is already installed, use 'telepresence helm upgrade' instead to replace it")))

/-- The function `ensureIsDeleted`. -/
def ensureIsDeleted (env : Env) (releaseName ns : String) (errOnFail : Bool) (w : World) :
    World × Option GoError :=
  match getHelmConfig env ns with
  | .error err => (w, some (.wrap ("failed to initialize helm config: " ++ err.Error) err))
  | .ok helmConfig =>
    let w1 : World := { w with now := w.now + env.pollLatency w.polls, polls := w.polls + 1 }
    match env.getHelmRelease w.polls releaseName helmConfig with
    | .error err =>
      let err := GoError.wrap
        ("unable to look for existing helm release in namespace " ++ ns ++ ": " ++ err.Error) err
      if errOnFail then (w1, some err) else (w1, none)
    | .ok none =>
      let err := GoError.new (releaseName ++ " in namespace " ++ ns ++ " already deleted")
      if errOnFail then (w1, some err) else (w1, none)
    | .ok (some _) => uninstallExisting env helmConfig releaseName ns w1

/-- The function `EnsureTrafficManager`; loading the built-in chart is taken to succeed. -/
def EnsureTrafficManager (env : Env) (ns : String) (req : HelmRequest) (w : World) :
    Option (World × Option GoError) :=
  if req.Crds then
    match ensureIsInstalled env crdReleaseName ns req w with
    | none => none
    | some (w, some err) =>
      some (w, some (.wrap ("failed to install traffic manager CRDs: " ++ err.Error) err))
    | some (w, none) => some (w, none)
  else
    match ensureIsInstalled env trafficManagerReleaseName ns req w with
    | none => none
    | some (w, some err) =>
      some (w, some (.wrap ("failed to install traffic manager: " ++ err.Error) err))
    | some (w, none) => some (w, none)

/-- The function `DeleteTrafficManager`. -/
def DeleteTrafficManager (env : Env) (ns : String) (errOnFail crds : Bool) (w : World) :
    World × Option GoError :=
  if !crds then ensureIsDeleted env trafficManagerReleaseName ns errOnFail w
  else ensureIsDeleted env crdReleaseName ns errOnFail w

end helm

/-! ## `pkg/client/cli/intercept_state.go` -/

namespace cli

/-- The error codes `connector.InterceptError` that the code names. -/
inductive InterceptError where
  | UNSPECIFIED
  | NO_PREVIEW_HOST
  | NO_CONNECTION
  | NO_TRAFFIC_MANAGER
  | TRAFFIC_MANAGER_CONNECTING
  | ALREADY_EXISTS
  | NO_ACCEPTABLE_DEPLOYMENT
  | TRAFFIC_MANAGER_ERROR
  | AMBIGUOUS_MATCH
  | FAILED_TO_ESTABLISH
  | FAILED_TO_REMOVE
  | NOT_FOUND
  deriving DecidableEq, Repr

/-- The reply `connector.InterceptResult`: a code and its payload text. -/
structure InterceptResult where
  Error : InterceptError
  ErrorText : String
  deriving DecidableEq, Repr

/-- The fields of `manager.AgentInfo` that the code reads. -/
structure AgentInfo where
  Name : String
  Hostname : String
  deriving DecidableEq, Repr

/-- The message `manager.InterceptSpec`. -/
structure InterceptSpec where
  Name : String
  Agent : String
  Mechanism : String
  TargetHost : String
  TargetPort : Int
  deriving DecidableEq, Repr

/-- The message `manager.CreateInterceptRequest`. -/
structure CreateInterceptRequest where
  InterceptSpec : InterceptSpec
  deriving DecidableEq, Repr

/-- The message `manager.RemoveInterceptRequest2`. -/
structure RemoveInterceptRequest2 where
  Name : String
  deriving DecidableEq, Repr

/-- The struct `interceptInfo` without the embedded `sessionInfo`. -/
structure interceptInfo where
  name : String
  agentName : String
  port : Int
  deriving DecidableEq, Repr

/-- The external collaborators of the intercept commands, for a remote whose state has type
`σ`: the two RPCs (each maps the state of the remote and a request to the new state and either
a transport error or a reply), the package variable `errConnectorIsNotRunning`, the decoding
`json.Unmarshal` into a `[]manager.AgentInfo`, and the Unicode tables behind `%q`. -/
structure Env (σ : Type) where
  CreateIntercept : σ → CreateInterceptRequest → σ × Except GoError InterceptResult
  RemoveIntercept : σ → RemoveInterceptRequest2 → σ × Except GoError InterceptResult
  errConnectorIsNotRunning : GoError
  unmarshalMatches : String → Except GoError (List AgentInfo)
  unicodePrint : Char → Bool

/-- The struct `interceptState` with what it points to: the intercept info, the state of the
remote behind `cs.grpc`, and the text written so far to `cmd.OutOrStdout()`. -/
structure interceptState (σ : Type) where
  info : interceptInfo
  remote : σ
  stdout : String

/-- The conversion `int32(x)` of a Go `int`. -/
def int32 (x : Int) : Int :=
  (x + 2147483648) % 4294967296 - 2147483648

/-- The verb `%4d` for a number that is not negative: decimal, padded with blanks on the left
to four characters. -/
def format4d (n : Nat) : String :=
  ⟨List.replicate (4 - (Nat.repr n).data.length) ' ' ++ (Nat.repr n).data⟩

/-- The lines that `interceptMessage` appends for the matches from position `idx` on. -/
def matchLines : Nat → List AgentInfo → String
  | _, [] => ""
  | idx, m :: rest =>
    "\n" ++ format4d (idx + 1) ++ ": " ++ m.Name ++ " on host " ++ m.Hostname ++
      matchLines (idx + 1) rest

/-- The function `interceptMessage`. -/
def interceptMessage {σ : Type} (env : Env σ) (ie : InterceptError) (txt : String) : String :=
  match ie with
  | .UNSPECIFIED => ""
  | .NO_PREVIEW_HOST =>
    "Your cluster is not configured for Preview URLs.\n" ++
    "(Could not find a Host resource that enables Path-type Preview URLs.)\n" ++
    "Please specify one or more header matches using --match."
  | .NO_CONNECTION => env.errConnectorIsNotRunning.Error
  | .NO_TRAFFIC_MANAGER => "Intercept unavailable: no traffic manager"
  | .TRAFFIC_MANAGER_CONNECTING => "Connecting to traffic manager..."
  | .ALREADY_EXISTS => "Intercept with name " ++ Quote env.unicodePrint txt ++ " already exists"
  | .NO_ACCEPTABLE_DEPLOYMENT => "No interceptable deployment matching " ++ txt ++ " found"
  | .TRAFFIC_MANAGER_ERROR => txt
  | .AMBIGUOUS_MATCH =>
    match env.unmarshalMatches txt with
    | .error err => "Unable to unmarshal JSON: " ++ err.Error
    | .ok agents => "Found more than one possible match:" ++ matchLines 0 agents
  | .FAILED_TO_ESTABLISH => "Failed to establish intercept: " ++ txt
  | .FAILED_TO_REMOVE => "Error while removing intercept: " ++ txt
  | .NOT_FOUND => "Intercept named " ++ Quote env.unicodePrint txt ++ " not found"

/-- The method `EnsureState`. -/
def EnsureState {σ : Type} (env : Env σ) (st : interceptState σ) :
    interceptState σ × (Bool × Option GoError) :=
  let info := if st.info.name = "" then { st.info with name := st.info.agentName } else st.info
  match env.CreateIntercept st.remote
      ⟨{ Name := info.name, Agent := info.agentName, Mechanism := "tcp",
         TargetHost := "127.0.0.1", TargetPort := int32 info.port }⟩ with
  | (remote, .error err) => ({ st with info := info, remote := remote }, (false, some err))
  | (remote, .ok r) =>
    match r.Error with
    | .UNSPECIFIED =>
      ({ info := info, remote := remote,
         stdout := st.stdout ++ "Using deployment " ++ info.agentName ++ "\n" }, (true, none))
    | .ALREADY_EXISTS =>
      ({ info := info, remote := remote,
         stdout := st.stdout ++ interceptMessage env r.Error r.ErrorText ++ "\n" }, (false, none))
    | .NO_CONNECTION =>
      ({ st with info := info, remote := remote }, (false, some env.errConnectorIsNotRunning))
    | _ =>
      ({ st with info := info, remote := remote },
        (false, some (.new (interceptMessage env r.Error r.ErrorText))))

/-- The method `DeactivateState`. -/
def DeactivateState {σ : Type} (env : Env σ) (st : interceptState σ) :
    interceptState σ × Option GoError :=
  let name := TrimSpace st.info.name
  match env.RemoveIntercept st.remote ⟨name⟩ with
  | (remote, .error err) => ({ st with remote := remote }, some err)
  | (remote, .ok r) =>
    if r.Error ≠ InterceptError.UNSPECIFIED then
      ({ st with remote := remote }, some (.new (interceptMessage env r.Error r.ErrorText)))
    else ({ st with remote := remote }, none)

end cli

/-! ## Notions used to state the properties of the merge -/

/-- The binding that the merge leaves at a key, from the bindings of the override (`dv`) and of
the defaults (`v`) at that key. -/
def coalesceEntry : Option Value → Option Value → Option Value
  | some dv, some v => some (coalesceValue dv v)
  | some dv, none => some dv
  | none, v => v

/-! ## Sample environments -/

namespace helm

/-- The calls issued between the states `w` and `w1` are of exactly the kinds `kinds`, in this
order. -/
def IssuesExactly (w w1 : World) (kinds : List CallKind) : Prop :=
  ∃ cs, w1.calls = w.calls ++ cs ∧ cs.map Call.kind = kinds

/-- Every uninstall of the environment succeeds. -/
def UninstallSucceeds (env : Env) : Prop :=
  ∀ helmConfig releaseName ns w, (uninstallExisting env helmConfig releaseName ns w).2 = none

/-- Every install of the environment succeeds. -/
def InstallSucceeds (env : Env) : Prop :=
  ∀ helmConfig releaseName ns values w,
    (installNew env helmConfig releaseName ns values w).2 = none

/-- The values of the request resolve: `ValuesJson` is empty or decodes. -/
def ValuesResolve (env : Env) (req : HelmRequest) : Prop :=
  req.ValuesJson.length = 0 ∨ ∃ vals, env.jsonUnmarshal req.ValuesJson = .ok vals

/-- A status on which the loop of `isInstalled` waits: pending, or uninstalling. -/
def Status.Transitional (st : Status) : Bool :=
  st.IsPending || st == Status.Uninstalling

/-- The time on the clock taken by `k` lookups, each followed by its sleep of one second,
starting with lookup number `first`. -/
def pollsElapsed (env : Env) (first : Nat) : Nat → Nat
  | 0 => 0
  | k + 1 => env.pollLatency first + Second + pollsElapsed env (first + 1) k

/-- Lines 242 to 252 of `ensureIsInstalled` on their own: the forced uninstall of a release
that is not `Deployed`, and the release that the rest of the function goes on with. -/
def cleanupLeftover (env : Env) (helmConfig : Configuration) (releaseName ns : String)
    (existing : Option Release) (w : World) : World × Except GoError (Option Release) :=
  match existing with
  | some rel =>
    if rel.Info.Status ≠ Status.Deployed then
      match uninstallExisting env helmConfig ns releaseName w with
      | (w, some err) =>
        (w, .error (.wrap ("failed to clean up leftover release history: " ++ err.Error) err))
      | (w, none) => (w, .ok none)
    else (w, .ok (some rel))
  | none => (w, .ok none)

/-- Lines 254 to 290 of `ensureIsInstalled` on their own: the values and the dispatch on the
release and the verb. -/
def installOrUpgrade (env : Env) (helmConfig : Configuration) (releaseName ns : String)
    (req : HelmRequest) (existing : Option Release) (w : World) :
    Option (World × Option GoError) :=
  match resolveValues env req with
  | .error err => some (w, some err)
  | .ok vals =>
    match existing with
    | none =>
      if releaseName = trafficManagerReleaseName then
        match env.importLegacy releaseName ns with
        | some _ => some (w, none)
        | none => some (installNew env helmConfig releaseName ns vals w)
      else some (installNew env helmConfig releaseName ns vals w)
    | some rel =>
      if req.Type_ = HelmRequestType.UPGRADE then
        some (upgradeExisting env helmConfig releaseName ns req.ResetValues req.ReuseValues
          vals w)
      else
        some (w, some (.user (releaseName ++ " version " ++
          Quote env.unicodePrint (env.releaseVer rel) ++
          " is already installed, use 'telepresence helm upgrade' instead to replace it")))

/-- The text of `w` before its first colon (all of `w` when it has no colon). -/
def beforeFirstColon (w : String) : String :=
  ⟨w.data.takeWhile (fun c => c ≠ ':')⟩

/-- The text of `w` between its first and its second colon: what follows the first colon, up to
the next colon or the end (empty when `w` has no colon). -/
def betweenFirstAndSecondColon (w : String) : String :=
  ⟨((w.data.dropWhile (fun c => c ≠ ':')).drop 1).takeWhile (fun c => c ≠ ':')⟩

/-- A client configuration with the defaults and version `v2.9.0`. -/
def sampleConfig : ClientConfig where
  Version := "v2.9.0"
  Registry := "docker.io/datawire"
  AgentImage := ""
  WebhookRegistry := ""
  SystemaHost := "app.getambassador.io"
  SystemaPort := "443"
  MaxReceiveSize := none
  AppProtocolStrategy := none
  TelepresenceAPIPort := 0

/-- A release `traffic-manager` in namespace `ambassador` with the given status. -/
def sampleRelease (st : Status) : Release where
  Name := "traffic-manager"
  Namespace := "ambassador"
  Version := 1
  Info := { Status := st, Description := "" }

/-- The override tree of the JSON text `{"image":"x"}`. -/
def imageOverride : Table :=
  .cons "image" (.leaf (.str "x")) .nil

/-- A decoder that knows the text `{"image":"x"}` and rejects every other text the way
`json.Unmarshal` rejects a text that ends early. -/
def sampleUnmarshal (text : String) : Except GoError Table :=
  if text = "\x7b\"image\":\"x\"\x7d" then .ok imageOverride
  else .error (.new "unexpected end of JSON input")

/-- An environment with a three second timeout in which every lookup answers `found`, the
legacy import answers `imported` and every mutating call succeeds before its deadline. -/
def sampleEnv (found : Except GoError (Option Release)) (imported : Option GoError) : Env where
  config := sampleConfig
  helmInit := fun _ => none
  getHelmRelease := fun _ _ _ => found
  pollLatency := fun _ => 0
  timeoutHelm := 3000000000
  Run := fun _ _ => none
  deadlineFirst := fun _ _ => false
  ctxErr := .new "context deadline exceeded"
  CheckTimeout := fun err => err
  importLegacy := fun _ _ => imported
  releaseVer := fun _ => "2.9.0"
  jsonUnmarshal := sampleUnmarshal
  unicodePrint := fun _ => true

/-- A request to install with no override values. -/
def installRequest : HelmRequest where
  Type_ := .INSTALL
  ValuesJson := ""
  ReuseValues := false
  ResetValues := false
  Crds := false

/-- The state before anything happened. -/
def world0 : World := ⟨0, 0, []⟩

/-- The state after one lookup that took no time. -/
def world1 : World := ⟨0, 1, []⟩

/-- A request to install whose override values break off after the opening brace. -/
def brokenValuesRequest : HelmRequest where
  Type_ := .INSTALL
  ValuesJson := "\x7b"
  ReuseValues := false
  ResetValues := false
  Crds := false

/-- The release is found with status `Failed`, and the legacy import works. -/
def failedEnv : Env := sampleEnv (.ok (some (sampleRelease .Failed))) none

/-- The release is found with status `Failed`, and the legacy import is refused. -/
def failedImportRefusedEnv : Env :=
  sampleEnv (.ok (some (sampleRelease .Failed))) (some (.new "forbidden"))

/-- No release is found, and the legacy import is refused. -/
def absentImportRefusedEnv : Env := sampleEnv (.ok none) (some (.new "forbidden"))

/-- Every lookup is refused. -/
def lookupRefusedEnv : Env := sampleEnv (.error (.new "forbidden")) none

/-- The release is found with status `PendingInstall` on every lookup. -/
def stuckEnv : Env := sampleEnv (.ok (some (sampleRelease .PendingInstall))) none

/-- No release is found, and the legacy import works. -/
def absentEnv : Env := sampleEnv (.ok none) none

/-- A request to install with the override values `{"image":"x"}`. -/
def overrideRequest : HelmRequest where
  Type_ := .INSTALL
  ValuesJson := "\x7b\"image\":\"x\"\x7d"
  ReuseValues := false
  ResetValues := false
  Crds := false

/-- The sample configuration with the agent image `docker.io/datawire/tel2:2.9.0`. -/
def agentImageConfig : ClientConfig :=
  { sampleConfig with AgentImage := "docker.io/datawire/tel2:2.9.0" }

/-- The sample configuration with the agent image `localhost:5000/tel2:2.9.0`. -/
def portImageConfig : ClientConfig :=
  { sampleConfig with AgentImage := "localhost:5000/tel2:2.9.0" }

/-- A store that refuses every mutating call except the two that `ensureIsInstalled` issues
for the release `traffic-manager`, found `Failed` in namespace `ambassador`: the forced
uninstall, as the first call, and the install of `traffic-manager`, as the second call. -/
def issuedOnlyRun (earlier : List Call) (call : Call) : Option GoError :=
  match call with
  | .uninstall _ releaseName =>
    if releaseName = "ambassador" ∧ earlier.length = 0 then none
    else some (.new "uninstall: Release not loaded: release: not found")
  | .install _ releaseName _ _ =>
    if releaseName = "traffic-manager" ∧ earlier.length = 1 then none
    else some (.new "cannot re-use a name that is still in use")
  | .upgrade _ _ _ _ _ _ => some (.new "has no deployed releases")

/-- The release is found with status `Failed`, the legacy import works, and the store is
`issuedOnlyRun`. -/
def issuedOnlyEnv : Env :=
  { failedEnv with Run := issuedOnlyRun }

/-- The release is found with status `Deployed`. -/
def deployedEnv : Env := sampleEnv (.ok (some (sampleRelease .Deployed))) none

end helm

namespace cli

/-- The request that `EnsureState` sends for an intercept info: the name falls back to the
agent name when it is empty. -/
def createRequest (info : interceptInfo) : CreateInterceptRequest :=
  ⟨{ Name := if info.name = "" then info.agentName else info.name,
     Agent := info.agentName, Mechanism := "tcp", TargetHost := "127.0.0.1",
     TargetPort := int32 info.port }⟩

/-- A character that `%q` prints as it is: printable ASCII other than the double quote and the
backslash. -/
def PlainChar (c : Char) : Prop :=
  32 ≤ c.toNat ∧ c.toNat < 127 ∧ c ≠ dquote ∧ c ≠ backslash

/-- A remote that keeps the names of its intercepts: it accepts the first create of a name and
answers `ALREADY_EXISTS` afterwards, and it answers `NOT_FOUND`, echoing the name, to the
removal of a name it does not have. -/
def fakeManager : Env (List String) where
  CreateIntercept := fun names req =>
    if req.InterceptSpec.Name ∈ names then
      (names, .ok ⟨.ALREADY_EXISTS, req.InterceptSpec.Name⟩)
    else (req.InterceptSpec.Name :: names, .ok ⟨.UNSPECIFIED, ""⟩)
  RemoveIntercept := fun names req =>
    if req.Name ∈ names then (names.erase req.Name, .ok ⟨.UNSPECIFIED, ""⟩)
    else (names, .ok ⟨.NOT_FOUND, req.Name⟩)
  errConnectorIsNotRunning := .new "Not connected"
  unmarshalMatches := fun _ => .error (.new "unexpected end of JSON input")
  unicodePrint := fun _ => true

/-- A fresh session: an intercept state for the given name against a remote with no
intercepts. -/
def freshState (name : String) : interceptState (List String) where
  info := { name := name, agentName := name, port := 8080 }
  remote := []
  stdout := ""

/-- The line that lists candidate `m` under the number `n`. -/
def candidateLine (n : Nat) (m : AgentInfo) : String :=
  "\n" ++ format4d n ++ ": " ++ m.Name ++ " on host " ++ m.Hostname

/-- The candidates `echo` on `host-a` and `echo-2` on `host-b`. -/
def twoCandidates : List AgentInfo :=
  [⟨"echo", "host-a"⟩, ⟨"echo-2", "host-b"⟩]

/-- The JSON text of `twoCandidates`. -/
def twoCandidatesJson : String :=
  "[\x7b\"name\":\"echo\",\"hostname\":\"host-a\"\x7d," ++
    "\x7b\"name\":\"echo-2\",\"hostname\":\"host-b\"\x7d]"

/-- The remote `fakeManager` with a decoder that knows the text `twoCandidatesJson` and
rejects every other text. -/
def candidatesEnv : Env (List String) :=
  { fakeManager with
    unmarshalMatches := fun text =>
      if text = twoCandidatesJson then .ok twoCandidates
      else .error (.new "unexpected end of JSON input") }

end cli

/-! ## Theorems -/

/-! ### The merge of value trees -/

/-- Looking up the key just assigned. -/
theorem Table.get?_set_self : ∀ (t : Table) (key : String) (v : Value),
    (t.set key v).get? key = some v
  | .nil, key, v => by simp [Table.set, Table.get?]
  | .cons k x rest, key, v => by
    have ih := Table.get?_set_self rest key v
    unfold Table.set
    by_cases h : k = key
    · simp [h, Table.get?]
    · simp [h, Table.get?, ih]

/-- Looking up another key than the one assigned. -/
theorem Table.get?_set_ne : ∀ (t : Table) (key other : String) (v : Value), other ≠ key →
    (t.set key v).get? other = t.get? other
  | .nil, key, other, v, h => by simp [Table.set, Table.get?, Ne.symm h]
  | .cons k x rest, key, other, v, h => by
    have ih := Table.get?_set_ne rest key other v h
    unfold Table.set
    by_cases hk : k = key
    · subst hk
      simp [Table.get?, Ne.symm h]
    · by_cases hko : k = other
      · subst hko
        simp [hk, Table.get?]
      · simp [hk, hko, Table.get?, ih]

/-- Merging nothing into a table. -/
theorem CoalesceTables_nil (dst : Table) : CoalesceTables dst .nil = dst := by
  rw [CoalesceTables]

/-- Merging a table with a first entry: the entry is merged, then the rest. -/
theorem CoalesceTables_cons (dst : Table) (key : String) (val : Value) (rest : Table) :
    CoalesceTables dst (.cons key val rest)
      = CoalesceTables
          (match dst.get? key with
            | none => dst.set key val
            | some dv => dst.set key (coalesceValue dv val))
          rest := by
  rw [CoalesceTables]

/-- The merge of two tables is the table of their merge. -/
theorem coalesceValue_table (td ts : Table) :
    coalesceValue (.table td) (.table ts) = .table (CoalesceTables td ts) := by
  rw [coalesceValue]

/-- When one of the two values is not a table, the override is kept. -/
theorem coalesceValue_of_not_both (dv v : Value) (h : ¬ (dv.istable = true ∧ v.istable = true)) :
    coalesceValue dv v = dv := by
  cases v with
  | leaf s => rw [coalesceValue]
  | table ts =>
    cases dv with
    | leaf s => rw [coalesceValue]
    | table td => exact absurd ⟨rfl, rfl⟩ h

/-- The binding of a key after the merge, for defaults whose keys are distinct. -/
theorem CoalesceTables_get? : ∀ (src dst : Table) (key : String), src.WellFormed →
    (CoalesceTables dst src).get? key = coalesceEntry (dst.get? key) (src.get? key)
  | .nil, dst, key, _ => by
    rw [CoalesceTables_nil]
    cases h : dst.get? key <;> simp [Table.get?, coalesceEntry]
  | .cons k v rest, dst, key, hwf => by
    rw [Table.WellFormed] at hwf
    obtain ⟨hfresh, _, hrest⟩ := hwf
    rw [CoalesceTables_cons, CoalesceTables_get? rest _ key hrest]
    by_cases hk : k = key
    · subst hk
      rw [hfresh]
      cases hd : dst.get? k with
      | none => simp [Table.get?_set_self, Table.get?, coalesceEntry]
      | some dv => simp [Table.get?_set_self, Table.get?, coalesceEntry]
    · have hne : key ≠ k := fun h => hk h.symm
      cases hd : dst.get? k with
      | none => simp [Table.get?_set_ne _ _ _ _ hne, Table.get?, hk]
      | some dv => simp [Table.get?_set_ne _ _ _ _ hne, Table.get?, hk]

/-- The values bound in a well-formed table are well formed. -/
theorem Table.WellFormed.get? : ∀ (t : Table) (key : String) (v : Value),
    t.WellFormed → t.get? key = some v → v.WellFormed
  | .nil, key, v, _, h => by simp [Table.get?] at h
  | .cons k x rest, key, v, hwf, h => by
    rw [Table.WellFormed] at hwf
    unfold Table.get? at h
    by_cases hk : k = key
    · simp only [hk, if_true, Option.some.injEq] at h
      rw [← h]
      exact hwf.2.1
    · simp only [hk, if_false] at h
      exact Table.WellFormed.get? rest key v hwf.2.2 h

/-- At a key path that both trees bind, the merge holds the merge of the two values found
there. -/
theorem coalesceValue_getPath_both :
    ∀ (p : List String) (x0 y0 x y : Value), y0.WellFormed →
      x0.getPath p = some x → y0.getPath p = some y →
      (coalesceValue x0 y0).getPath p = some (coalesceValue x y) := by
  intro p
  induction p with
  | nil =>
    intro x0 y0 x y _ hx hy
    simp only [Value.getPath, Option.some.injEq] at hx hy
    rw [← hx, ← hy]
    simp [Value.getPath]
  | cons k ks ih =>
    intro x0 y0 x y hwf hx hy
    cases x0 with
    | leaf s => simp [Value.getPath] at hx
    | table t0 =>
      cases y0 with
      | leaf s => simp [Value.getPath] at hy
      | table ts =>
        rw [Value.WellFormed] at hwf
        rw [coalesceValue_table]
        simp only [Value.getPath] at hx hy ⊢
        rw [CoalesceTables_get? ts t0 k hwf]
        cases hd : t0.get? k with
        | none => simp [hd] at hx
        | some dv =>
          cases hs : ts.get? k with
          | none => simp [hs] at hy
          | some v =>
            simp only [hd, hs, coalesceEntry] at hx hy ⊢
            exact ih dv v x y (Table.WellFormed.get? ts k v hwf hs) hx hy

/-- At a key path that the override does not bind, and none of whose prefixes the override
binds to a value that is not a table, the merge holds what the defaults hold. -/
theorem coalesceValue_getPath_absent :
    ∀ (p : List String) (x0 y0 : Value), y0.WellFormed →
      x0.getPath p = none →
      (∀ q s, q <+: p → x0.getPath q ≠ some (.leaf s)) →
      (coalesceValue x0 y0).getPath p = y0.getPath p := by
  intro p
  induction p with
  | nil =>
    intro x0 y0 _ hx _
    simp [Value.getPath] at hx
  | cons k ks ih =>
    intro x0 y0 hwf hx hpre
    cases x0 with
    | leaf s => exact absurd rfl (hpre [] s (List.nil_prefix))
    | table t0 =>
      cases y0 with
      | leaf s =>
        rw [coalesceValue_of_not_both _ _ (by simp [Value.istable]), hx]
        simp [Value.getPath]
      | table ts =>
        rw [Value.WellFormed] at hwf
        rw [coalesceValue_table]
        simp only [Value.getPath] at hx ⊢
        rw [CoalesceTables_get? ts t0 k hwf]
        cases hd : t0.get? k with
        | none => simp [coalesceEntry]
        | some dv =>
          simp only [hd] at hx
          cases hs : ts.get? k with
          | none => simp only [coalesceEntry, hx]
          | some v =>
            simp only [coalesceEntry]
            apply ih dv v (Table.WellFormed.get? ts k v hwf hs) hx
            intro q s hq
            have := hpre (k :: q) s ((List.prefix_cons_inj k).mpr hq)
            simpa [Value.getPath, hd] using this

/-- Assigning a well-formed value keeps a table well formed. -/
theorem Table.WellFormed.set : ∀ (t : Table) (key : String) (v : Value),
    t.WellFormed → v.WellFormed → (t.set key v).WellFormed
  | .nil, key, v, _, hv => by
    simp [Table.set, Table.WellFormed, Table.get?, hv]
  | .cons k x rest, key, v, ht, hv => by
    rw [Table.WellFormed] at ht
    unfold Table.set
    by_cases hk : k = key
    · simp only [hk, if_true]
      rw [Table.WellFormed]
      exact ⟨hk ▸ ht.1, hv, ht.2.2⟩
    · simp only [hk, if_false]
      rw [Table.WellFormed]
      refine ⟨?_, ht.2.1, Table.WellFormed.set rest key v ht.2.2 hv⟩
      rw [Table.get?_set_ne rest key k v hk]
      exact ht.1

namespace helm

/-! ### General facts about the installer -/

/-- The function `timedRun` issues its call, and nothing else. -/
theorem timedRun_calls (env : Env) (call : Call) (w : World) :
    (timedRun env call w).1.calls = w.calls ++ [call] := by
  unfold timedRun
  split
  · rfl
  · split <;> rfl

/-- The polling loop issues no mutating call. -/
theorem isInstalledLoop_calls (env : Env) (releaseName : String) (helmConfig : Configuration)
    (start : Nat) (timeout : Duration) :
    ∀ (fuel : Nat) (w : World) (existing : Option Release) (w1 : World) (r : Located),
      isInstalledLoop env releaseName helmConfig start timeout fuel w existing = some (w1, r) →
      w1.calls = w.calls := by
  intro fuel
  induction fuel with
  | zero =>
    intro w existing w1 r h
    unfold isInstalledLoop at h
    split at h
    · simp at h
    · simp only [Option.some.injEq, Prod.mk.injEq] at h
      rw [← h.1]
  | succ n ih =>
    intro w existing w1 r h
    unfold isInstalledLoop at h
    split at h
    · simp only at h
      split at h
      · simp only [Option.some.injEq, Prod.mk.injEq] at h
        rw [← h.1]
      · simp only [Option.some.injEq, Prod.mk.injEq] at h
        rw [← h.1]
      · split at h
        · simp only [Option.some.injEq, Prod.mk.injEq] at h
          rw [← h.1]
        · exact (ih _ _ _ _ h).trans rfl
    · simp only [Option.some.injEq, Prod.mk.injEq] at h
      rw [← h.1]

/-- The function `isInstalled` issues no mutating call. -/
theorem isInstalled_calls (env : Env) (releaseName ns : String) (w w1 : World) (r : Located)
    (h : isInstalled env releaseName ns w = some (w1, r)) : w1.calls = w.calls := by
  unfold isInstalled at h
  split at h
  · simp only [Option.some.injEq, Prod.mk.injEq] at h
    rw [← h.1]
  · exact isInstalledLoop_calls _ _ _ _ _ _ _ _ _ _ h

/-- The fuel that `isInstalled` gives its loop covers the timeout. -/
theorem isInstalled_fuel_covers (timeout : Duration) (now : Nat) :
    timeout ≤ (now : Int) - (now : Int)
      + ((timeout.toNat / Second + 1 : Nat) : Int) * (Second : Int) := by
  have h1 : timeout.toNat < (timeout.toNat / Second + 1) * Second := by
    have := Nat.lt_div_mul_add (a := timeout.toNat) (b := Second) (by decide)
    rw [Nat.add_mul, Nat.one_mul]
    exact this
  have h2 : timeout ≤ (timeout.toNat : Int) := Int.self_le_toNat _
  have h3 : ((timeout.toNat : Nat) : Int) < (((timeout.toNat / Second + 1) * Second : Nat) : Int) := by
    exact_mod_cast h1
  push_cast at h3 ⊢
  linarith

/-- Once `isInstalled` has returned, `ensureIsInstalled` returns too. -/
theorem ensureIsInstalled_returns (env : Env) (releaseName ns : String) (req : HelmRequest)
    (w w1 : World) (r : Located) (hloc : isInstalled env releaseName ns w = some (w1, r)) :
    ∃ res, ensureIsInstalled env releaseName ns req w = some res := by
  unfold ensureIsInstalled
  rw [hloc]
  repeat' split
  all_goals first | exact ⟨_, rfl⟩ | simp_all

/-! ### A release located as failed -/

/-- C1 (as amended): when `ensureIsInstalled` locates a release whose status is `Failed`, the
forced uninstall that it issues succeeds, the install that it issues after it succeeds, the
values of the request resolve and, for the release `traffic-manager`, the legacy import
succeeds, it returns `nil` and the calls it issues are exactly one uninstall followed by one
install, with no upgrade.  The two success hypotheses are about the calls of this run only: the
uninstall of line 247, with its arguments in the order of the source, made in the state `w1`
that `isInstalled` left, and the install of `releaseName` with the resolved values, made in the
state that this uninstall left. -/
theorem ensureIsInstalled_failed_reinstalls (env : Env) (releaseName ns : String)
    (req : HelmRequest) (w w1 : World) (rel : Release) (helmConfig : Configuration)
    (hloc : isInstalled env releaseName ns w = some (w1, .ok (some rel, helmConfig)))
    (hst : rel.Info.Status = Status.Failed)
    (hun : (uninstallExisting env helmConfig ns releaseName w1).2 = none)
    (hin : ∀ vals, resolveValues env req = .ok vals →
      (installNew env helmConfig releaseName ns vals
        (uninstallExisting env helmConfig ns releaseName w1).1).2 = none)
    (hvals : ValuesResolve env req)
    (himp : releaseName = trafficManagerReleaseName → env.importLegacy releaseName ns = none) :
    ∃ w2, ensureIsInstalled env releaseName ns req w = some (w2, none) ∧
      IssuesExactly w w2 [CallKind.uninstall, CallKind.install] := by
  have hc := isInstalled_calls env releaseName ns w w1 _ hloc
  have hvals2 : ∃ vals, resolveValues env req = .ok vals := by
    unfold resolveValues
    rcases hvals with h0 | ⟨vals, hv⟩
    · simp [h0]
    · split
      · rw [hv]; exact ⟨_, rfl⟩
      · exact ⟨_, rfl⟩
  obtain ⟨vals, hv⟩ := hvals2
  have hu := hun
  have hucalls := timedRun_calls env (.uninstall helmConfig ns) w1
  obtain ⟨wu, eu⟩ : ∃ wu, uninstallExisting env helmConfig ns releaseName w1 = (wu, none) :=
    ⟨(uninstallExisting env helmConfig ns releaseName w1).1, by rw [← hu]⟩
  have hwu : wu.calls = w.calls ++ [.uninstall helmConfig ns] := by
    have := hucalls
    unfold uninstallExisting at eu
    rw [eu] at this
    rw [this, hc]
  have hi : (installNew env helmConfig releaseName ns vals wu).2 = none := by
    have := hin vals hv
    rw [eu] at this
    exact this
  have hicalls := timedRun_calls env (.install helmConfig releaseName ns vals) wu
  obtain ⟨wi, ei⟩ : ∃ wi, installNew env helmConfig releaseName ns vals wu = (wi, none) :=
    ⟨(installNew env helmConfig releaseName ns vals wu).1, by rw [← hi]⟩
  refine ⟨wi, ?_, ?_⟩
  · unfold ensureIsInstalled
    rw [hloc]
    simp only [hst, eu, hv]
    rw [if_pos (by decide : Status.Failed ≠ Status.Deployed)]
    by_cases hr : releaseName = trafficManagerReleaseName
    · have h2 := himp hr
      simp only [if_pos hr, h2, ei]
    · simp only [if_neg hr, ei]
  · refine ⟨[.uninstall helmConfig ns, .install helmConfig releaseName ns vals], ?_, rfl⟩
    unfold installNew at ei
    rw [ei] at hicalls
    rw [hicalls, hwu]
    simp

/-- In the sample environments every uninstall succeeds. -/
theorem sampleEnv_uninstallSucceeds (found : Except GoError (Option Release))
    (imported : Option GoError) : UninstallSucceeds (sampleEnv found imported) := by
  intro helmConfig releaseName ns w
  rfl

/-- In the sample environments every install succeeds. -/
theorem sampleEnv_installSucceeds (found : Except GoError (Option Release))
    (imported : Option GoError) : InstallSucceeds (sampleEnv found imported) := by
  intro helmConfig releaseName ns values w
  rfl

/-- Witness for C1 (as amended): release `traffic-manager` found `Failed` in namespace
`ambassador`, the import working, against the store `issuedOnlyRun`, in which only the two
calls of this run succeed. -/
theorem ensureIsInstalled_failed_reinstalls_witness :
    ∃ w2, ensureIsInstalled issuedOnlyEnv "traffic-manager" "ambassador" installRequest world0
        = some (w2, none) ∧
      IssuesExactly world0 w2 [CallKind.uninstall, CallKind.install] :=
  ensureIsInstalled_failed_reinstalls issuedOnlyEnv "traffic-manager" "ambassador"
    installRequest world0 world1 (sampleRelease .Failed) ⟨"ambassador"⟩ (by rfl) (by rfl)
    (by rfl)
    (fun vals hv => by
      have hvals : vals = getValues sampleConfig := by
        have h0 : resolveValues issuedOnlyEnv installRequest = .ok (getValues sampleConfig) := by
          rfl
        rw [h0] at hv
        exact (Except.ok.inj hv).symm
      subst hvals
      rfl)
    (Or.inl (by rfl)) (fun _ => by rfl)

/-- In the store `issuedOnlyRun` not every uninstall succeeds: the uninstall of the release
`traffic-manager` itself is refused. -/
theorem issuedOnlyEnv_not_uninstallSucceeds : ¬ UninstallSucceeds issuedOnlyEnv := by
  intro h
  have h2 := h ⟨"ambassador"⟩ "traffic-manager" "ambassador" world1
  have h3 : (uninstallExisting issuedOnlyEnv ⟨"ambassador"⟩ "traffic-manager" "ambassador"
      world1).2 = some (.new "uninstall: Release not loaded: release: not found") := by rfl
  rw [h3] at h2
  simp at h2

/-- C1 (as stated) fails: release `traffic-manager` is located with status `Failed`, every
uninstall and install succeeds, but the legacy import is refused; then the only call issued is
the uninstall, and no install follows. -/
theorem ensureIsInstalled_failed_import_refused_no_install :
    isInstalled failedImportRefusedEnv "traffic-manager" "ambassador" world0
        = some (world1, .ok (some (sampleRelease .Failed), ⟨"ambassador"⟩)) ∧
      (sampleRelease .Failed).Info.Status = Status.Failed ∧
      UninstallSucceeds failedImportRefusedEnv ∧ InstallSucceeds failedImportRefusedEnv ∧
      ensureIsInstalled failedImportRefusedEnv "traffic-manager" "ambassador" installRequest
          world0
        = some (⟨0, 1, [.uninstall ⟨"ambassador"⟩ "ambassador"]⟩, none) ∧
      ¬ IssuesExactly world0 ⟨0, 1, [.uninstall ⟨"ambassador"⟩ "ambassador"]⟩
          [CallKind.uninstall, CallKind.install] := by
  refine ⟨by rfl, by rfl, sampleEnv_uninstallSucceeds _ _, sampleEnv_installSucceeds _ _,
    by rfl, ?_⟩
  rintro ⟨cs, h1, h2⟩
  have h3 : cs = [.uninstall ⟨"ambassador"⟩ "ambassador"] := by
    simpa [world0] using h1.symm
  rw [h3] at h2
  simp at h2

/-! ### The forced uninstall -/

/-- C2: on the input release `traffic-manager`, namespace `ambassador`, located with status
`Failed`, the forced uninstall is issued for the release name `ambassador`, which is the
namespace, and not for `traffic-manager`, the release that was located. -/
theorem ensureIsInstalled_forced_uninstall_names_namespace :
    ensureIsInstalled failedEnv "traffic-manager" "ambassador" installRequest world0
      = some (⟨0, 1, [.uninstall ⟨"ambassador"⟩ "ambassador",
          .install ⟨"ambassador"⟩ "traffic-manager" "ambassador" (getValues sampleConfig)]⟩,
        none) := by
  rfl

/-! ### The legacy import -/

/-- C3 (as amended): for the release `traffic-manager`, when no release is present and the
values of the request resolve, a failure of the legacy import does not make
`ensureIsInstalled` fail: it returns `nil`, and it issues no call, so no install either. -/
theorem ensureIsInstalled_import_failure_returns_nil (env : Env) (ns : String)
    (req : HelmRequest) (w w1 : World) (helmConfig : Configuration) (err : GoError)
    (hloc : isInstalled env trafficManagerReleaseName ns w = some (w1, .ok (none, helmConfig)))
    (himp : env.importLegacy trafficManagerReleaseName ns = some err)
    (hvals : ValuesResolve env req) :
    ensureIsInstalled env trafficManagerReleaseName ns req w = some (w1, none) ∧
      IssuesExactly w w1 [] := by
  have hc := isInstalled_calls env _ ns w w1 _ hloc
  have hvals2 : ∃ vals, resolveValues env req = .ok vals := by
    unfold resolveValues
    rcases hvals with h0 | ⟨vals, hv⟩
    · simp [h0]
    · split
      · rw [hv]; exact ⟨_, rfl⟩
      · exact ⟨_, rfl⟩
  obtain ⟨vals, hv⟩ := hvals2
  refine ⟨?_, [], by simp [hc], rfl⟩
  unfold ensureIsInstalled
  rw [hloc]
  simp only [hv, himp, if_true]

/-- Witness for C3 (as amended): namespace `ambassador`, nothing installed, import refused. -/
theorem ensureIsInstalled_import_failure_returns_nil_witness :
    ensureIsInstalled absentImportRefusedEnv trafficManagerReleaseName "ambassador"
        installRequest world0 = some (world1, none) ∧
      IssuesExactly world0 world1 [] :=
  ensureIsInstalled_import_failure_returns_nil absentImportRefusedEnv "ambassador"
    installRequest world0 world1 ⟨"ambassador"⟩ (.new "forbidden") (by rfl) (by rfl)
    (Or.inl (by rfl))

/-- C3 (as stated) fails: for `traffic-manager` in namespace `ambassador`, nothing installed and
the import refused, `ensureIsInstalled` returns `nil` having issued no install call. -/
theorem ensureIsInstalled_import_refused_skips_install :
    isInstalled absentImportRefusedEnv "traffic-manager" "ambassador" world0
        = some (world1, .ok (none, ⟨"ambassador"⟩)) ∧
      ensureIsInstalled absentImportRefusedEnv "traffic-manager" "ambassador" installRequest
          world0 = some (world1, none) ∧
      ¬ IssuesExactly world0 world1 [CallKind.install] := by
  refine ⟨by rfl, by rfl, ?_⟩
  rintro ⟨cs, h1, h2⟩
  have h3 : cs = [] := by simpa [world0, world1] using h1.symm
  rw [h3] at h2
  simp at h2

/-! ### A deployed release and the verb Install -/

/-- C4 (as amended): when the located release is `Deployed` and the verb is Install,
`ensureIsInstalled` returns a non-nil error and issues no call; the error is the user error
advising the upgrade verb when the values of the request resolve, and the error of the JSON
decoder, wrapped, when they do not. -/
theorem ensureIsInstalled_deployed_install_rejected (env : Env) (releaseName ns : String)
    (req : HelmRequest) (w w1 : World) (rel : Release) (helmConfig : Configuration)
    (hloc : isInstalled env releaseName ns w = some (w1, .ok (some rel, helmConfig)))
    (hst : rel.Info.Status = Status.Deployed)
    (hty : req.Type_ = HelmRequestType.INSTALL) :
    ∃ err, ensureIsInstalled env releaseName ns req w = some (w1, some err) ∧
      IssuesExactly w w1 [] ∧
      (ValuesResolve env req →
        err = .user (releaseName ++ " version " ++
          Quote env.unicodePrint (env.releaseVer rel) ++
          " is already installed, use 'telepresence helm upgrade' instead to replace it")) ∧
      (∀ e, req.ValuesJson.length > 0 → env.jsonUnmarshal req.ValuesJson = .error e →
        err = .wrap ("unable to parse values JSON: " ++ e.Error) e) := by
  have hc := isInstalled_calls env releaseName ns w w1 _ hloc
  have hcalls : IssuesExactly w w1 [] := ⟨[], by simp [hc], rfl⟩
  unfold ensureIsInstalled
  rw [hloc]
  simp only [hst, hty, ne_eq, not_true_eq_false, if_false, reduceCtorEq]
  cases hv : resolveValues env req with
  | error err =>
    refine ⟨err, rfl, hcalls, ?_, ?_⟩
    · intro hres
      exfalso
      unfold resolveValues at hv
      rcases hres with h0 | ⟨vals, hvals⟩
      · simp [h0] at hv
      · rw [hvals] at hv
        split at hv <;> simp at hv
    · intro e hlen he
      unfold resolveValues at hv
      rw [if_pos hlen, he] at hv
      simp only [Except.error.injEq] at hv
      exact hv.symm
  | ok vals =>
    refine ⟨_, rfl, hcalls, fun _ => rfl, ?_⟩
    intro e hlen he
    unfold resolveValues at hv
    rw [if_pos hlen, he] at hv
    simp at hv

/-- Witness for C4 (as amended): `traffic-manager` deployed in `ambassador`, Install requested
with no override values. -/
theorem ensureIsInstalled_deployed_install_rejected_witness :
    ∃ err, ensureIsInstalled deployedEnv "traffic-manager" "ambassador" installRequest world0
        = some (world1, some err) ∧
      IssuesExactly world0 world1 [] ∧
      (ValuesResolve deployedEnv installRequest →
        err = .user ("traffic-manager" ++ " version " ++
          Quote deployedEnv.unicodePrint (deployedEnv.releaseVer (sampleRelease .Deployed)) ++
          " is already installed, use 'telepresence helm upgrade' instead to replace it")) ∧
      (∀ e, installRequest.ValuesJson.length > 0 →
        deployedEnv.jsonUnmarshal installRequest.ValuesJson = .error e →
        err = .wrap ("unable to parse values JSON: " ++ e.Error) e) :=
  ensureIsInstalled_deployed_install_rejected deployedEnv "traffic-manager" "ambassador"
    installRequest world0 world1 (sampleRelease .Deployed) ⟨"ambassador"⟩ (by rfl) (by rfl)
    (by rfl)

/-- C4 (as stated) fails: `traffic-manager` is located `Deployed`, the verb is Install and the
override values are the broken text `{`; the error returned is the wrapped error of the JSON
decoder, which is not the user error advising the upgrade verb. -/
theorem ensureIsInstalled_deployed_install_broken_values :
    isInstalled deployedEnv "traffic-manager" "ambassador" world0
        = some (world1, .ok (some (sampleRelease .Deployed), ⟨"ambassador"⟩)) ∧
      (sampleRelease .Deployed).Info.Status = Status.Deployed ∧
      brokenValuesRequest.Type_ = HelmRequestType.INSTALL ∧
      ensureIsInstalled deployedEnv "traffic-manager" "ambassador" brokenValuesRequest world0
        = some (world1, some (.wrap "unable to parse values JSON: unexpected end of JSON input"
            (.new "unexpected end of JSON input"))) ∧
      ¬ ∃ w2 msg, ensureIsInstalled deployedEnv "traffic-manager" "ambassador"
          brokenValuesRequest world0 = some (w2, some (GoError.user msg)) := by
  have h : ensureIsInstalled deployedEnv "traffic-manager" "ambassador" brokenValuesRequest
      world0 = some (world1, some (.wrap
        "unable to parse values JSON: unexpected end of JSON input"
        (.new "unexpected end of JSON input"))) := by rfl
  refine ⟨by rfl, by rfl, by rfl, h, ?_⟩
  rintro ⟨w2, msg, h2⟩
  rw [h] at h2
  simp at h2

/-! ### Uninstall requests -/

/-- If the lookups before the `k`-th one report transitional releases, the `k`-th lookup starts
before the timeout and fails, then the polling loop returns the error of that lookup. -/
theorem isInstalledLoop_lookup_error (env : Env) (releaseName : String)
    (helmConfig : Configuration) (start : Nat) (timeout : Duration) (e : GoError) :
    ∀ (k fuel : Nat) (w : World) (existing : Option Release),
      timeout ≤ (w.now : Int) - (start : Int) + (fuel : Int) * (Second : Int) →
      (w.now : Int) - (start : Int) + (pollsElapsed env w.polls k : Int) < timeout →
      (∀ i, i < k → ∃ rel, env.getHelmRelease (w.polls + i) releaseName helmConfig
          = .ok (some rel) ∧ rel.Info.Status.Transitional = true) →
      env.getHelmRelease (w.polls + k) releaseName helmConfig = .error e →
      ∃ w1, isInstalledLoop env releaseName helmConfig start timeout fuel w existing
        = some (w1, .error e) := by
  intro k
  induction k with
  | zero =>
    intro fuel w existing hfuel hreach _ hfail
    simp only [pollsElapsed, Nat.cast_zero, add_zero] at hreach hfail
    cases fuel with
    | zero =>
      simp only [Nat.cast_zero, zero_mul, add_zero] at hfuel
      exact absurd hreach (not_lt.mpr hfuel)
    | succ n =>
      unfold isInstalledLoop
      rw [if_pos hreach]
      simp only [hfail]
      exact ⟨_, rfl⟩
  | succ k ih =>
    intro fuel w existing hfuel hreach hpend hfail
    have hlt : (w.now : Int) - (start : Int) < timeout := by
      have : (0 : Int) ≤ (pollsElapsed env w.polls (k + 1) : Int) := Int.natCast_nonneg _
      linarith
    obtain ⟨rel, hrel, htr⟩ := hpend 0 (Nat.succ_pos k)
    cases fuel with
    | zero =>
      simp only [Nat.cast_zero, zero_mul, add_zero] at hfuel
      exact absurd hlt (not_lt.mpr hfuel)
    | succ n =>
      unfold isInstalledLoop
      rw [if_pos hlt]
      simp only [Nat.add_zero] at hrel
      simp only [hrel]
      have htr2 : (rel.Info.Status.IsPending || rel.Info.Status == Status.Uninstalling) = true :=
        htr
      simp only [htr2, Bool.not_true, Bool.false_eq_true, if_false]
      apply ih
      · simp only [Nat.cast_add, Nat.cast_succ] at hfuel ⊢
        have : (0 : Int) ≤ (env.pollLatency w.polls : Int) := Int.natCast_nonneg _
        linarith
      · simp only [pollsElapsed, Nat.cast_add] at hreach ⊢
        linarith
      · intro i hi
        have := hpend (i + 1) (Nat.succ_lt_succ hi)
        simpa [Nat.add_assoc, Nat.add_comm 1 i] using this
      · simpa [Nat.add_assoc, Nat.add_comm 1 k] using hfail

/-- C7: if the locator fails (the `k`-th lookup of `getHelmRelease` inside `isInstalled`
returns an error, the lookups before it having reported transitional releases and the `k`-th
one starting before the timeout), `ensureIsInstalled` returns a non-nil error that wraps the
error of the locator, and it issues no uninstall, install or upgrade call. -/
theorem ensureIsInstalled_locator_failure (env : Env) (releaseName ns : String)
    (req : HelmRequest) (w : World) (k : Nat) (e : GoError)
    (hinit : env.helmInit ns = none)
    (hpend : ∀ i, i < k → ∃ rel, env.getHelmRelease (w.polls + i) releaseName ⟨ns⟩
        = .ok (some rel) ∧ rel.Info.Status.Transitional = true)
    (hreach : (pollsElapsed env w.polls k : Int) < env.timeoutHelm)
    (hfail : env.getHelmRelease (w.polls + k) releaseName ⟨ns⟩ = .error e) :
    ∃ w1, ensureIsInstalled env releaseName ns req w
        = some (w1, some (.wrap ("err detecting " ++ releaseName ++ ": " ++ e.Error) e)) ∧
      (GoError.wrap ("err detecting " ++ releaseName ++ ": " ++ e.Error) e).Unwrap = some e ∧
      IssuesExactly w w1 [] := by
  have hfuel := isInstalled_fuel_covers env.timeoutHelm w.now
  obtain ⟨w1, hloop⟩ := isInstalledLoop_lookup_error env releaseName ⟨ns⟩ w.now
    env.timeoutHelm e k (env.timeoutHelm.toNat / Second + 1) w none hfuel
    (by simpa using hreach) hpend hfail
  have hloc : isInstalled env releaseName ns w = some (w1, .error e) := by
    unfold isInstalled getHelmConfig
    simp only [hinit]
    exact hloop
  have hc := isInstalled_calls env releaseName ns w w1 _ hloc
  refine ⟨w1, ?_, rfl, [], by simp [hc], rfl⟩
  unfold ensureIsInstalled
  rw [hloc]

/-- Witness for C7: the very first lookup for `traffic-manager` in `ambassador` is refused. -/
theorem ensureIsInstalled_locator_failure_witness :
    ∃ w1, ensureIsInstalled lookupRefusedEnv "traffic-manager" "ambassador" installRequest
        world0
        = some (w1, some (.wrap ("err detecting " ++ "traffic-manager" ++ ": " ++
            (GoError.new "forbidden").Error) (.new "forbidden"))) ∧
      (GoError.wrap ("err detecting " ++ "traffic-manager" ++ ": " ++
          (GoError.new "forbidden").Error) (.new "forbidden")).Unwrap
        = some (.new "forbidden") ∧
      IssuesExactly world0 w1 [] :=
  ensureIsInstalled_locator_failure lookupRefusedEnv "traffic-manager" "ambassador"
    installRequest world0 0 (.new "forbidden") (by rfl) (fun i hi => absurd hi (by omega))
    (by decide) (by rfl)

/-! ### A release stuck in a transitional status -/

/-- When every lookup reports a transitional release, the polling loop, given enough fuel,
stops after some number `n` of lookups: the time is then up, the last lookup started before the
timeout, no call was issued, and the release returned is the one reported by the last lookup
(or `existing` when there was no lookup). -/
theorem isInstalledLoop_stuck (env : Env) (releaseName : String) (helmConfig : Configuration)
    (start : Nat) (timeout : Duration) (rel : Nat → Release)
    (hstuck : ∀ n, env.getHelmRelease n releaseName helmConfig = .ok (some (rel n)) ∧
      (rel n).Info.Status.Transitional = true) :
    ∀ (fuel : Nat) (w : World) (existing : Option Release),
      timeout ≤ (w.now : Int) - (start : Int) + (fuel : Int) * (Second : Int) →
      ∃ n, n ≤ fuel ∧
        isInstalledLoop env releaseName helmConfig start timeout fuel w existing
          = some (⟨w.now + pollsElapsed env w.polls n, w.polls + n, w.calls⟩,
              .ok (if n = 0 then existing else some (rel (w.polls + n - 1)), helmConfig)) ∧
        timeout ≤ ((w.now + pollsElapsed env w.polls n : Nat) : Int) - (start : Int) ∧
        (n ≠ 0 → (w.now : Int) - (start : Int) + ((n : Int) - 1) * (Second : Int) < timeout) ∧
        (n = 0 ↔ ¬ ((w.now : Int) - (start : Int) < timeout)) := by
  intro fuel
  induction fuel with
  | zero =>
    intro w existing hfuel
    simp only [Nat.cast_zero, zero_mul, add_zero] at hfuel
    refine ⟨0, le_refl _, ?_, ?_, fun h => absurd rfl h, ?_⟩
    · unfold isInstalledLoop
      rw [if_neg (not_lt.mpr hfuel)]
      rfl
    · simpa [pollsElapsed] using hfuel
    · simp [not_lt.mpr hfuel]
  | succ f ih =>
    intro w existing hfuel
    by_cases hlt : (w.now : Int) - (start : Int) < timeout
    · obtain ⟨hrel, htr⟩ := hstuck w.polls
      have htr2 : ((rel w.polls).Info.Status.IsPending ||
          (rel w.polls).Info.Status == Status.Uninstalling) = true := htr
      have hfuel2 : timeout ≤
          ((w.now + env.pollLatency w.polls + Second : Nat) : Int) - (start : Int)
            + (f : Int) * (Second : Int) := by
        simp only [Nat.cast_add, Nat.cast_succ] at hfuel ⊢
        have : (0 : Int) ≤ (env.pollLatency w.polls : Int) := Int.natCast_nonneg _
        linarith
      obtain ⟨n, hn, hloop, hup, hlast, _⟩ := ih
        ⟨w.now + env.pollLatency w.polls + Second, w.polls + 1, w.calls⟩
        (some (rel w.polls)) hfuel2
      refine ⟨n + 1, Nat.succ_le_succ hn, ?_, ?_, ?_, ?_⟩
      · unfold isInstalledLoop
        rw [if_pos hlt]
        simp only [hrel, htr2, Bool.not_true, Bool.false_eq_true, if_false]
        rw [hloop]
        simp only [pollsElapsed, Nat.succ_ne_zero, if_false]
        by_cases hn0 : n = 0
        · subst hn0
          simp [pollsElapsed, Nat.add_assoc]
        · have e1 : w.polls + 1 + n - 1 = w.polls + (n + 1) - 1 := by omega
          simp only [hn0, if_false, e1]
          congr 2
          · simp only [World.mk.injEq, and_true]
            constructor <;> omega
      · simp only [pollsElapsed] at hup ⊢
        have e2 : w.now + env.pollLatency w.polls + Second + pollsElapsed env (w.polls + 1) n
            = w.now + (env.pollLatency w.polls + Second + pollsElapsed env (w.polls + 1) n) := by
          omega
        rw [← e2]
        exact hup
      · intro _
        by_cases hn0 : n = 0
        · subst hn0
          simpa using hlt
        · have h4 := hlast hn0
          simp only [Nat.cast_add, Nat.cast_succ] at h4 ⊢
          have : (0 : Int) ≤ (env.pollLatency w.polls : Int) := Int.natCast_nonneg _
          linarith
      · simp [hlt]
    · refine ⟨0, Nat.zero_le _, ?_, ?_, fun h => absurd rfl h, ?_⟩
      · unfold isInstalledLoop
        rw [if_neg hlt]
        rfl
      · simpa [pollsElapsed] using not_lt.mp hlt
      · simp [hlt]

/-- C8: bounded wait.  For every timeout, when the helm configuration initialises and every
lookup reports a release in a transitional status, `isInstalled` terminates: it returns after
some number `n` of lookups, with no error and no call issued.  The time elapsed on the clock
has then reached the timeout, the last lookup started before the timeout (so `n` is at most the
number of started seconds of the timeout), and the release returned is the one the last lookup
reported; there is no lookup at all exactly when the timeout is not positive, and then no
release (`nil`) is returned.  In every case `ensureIsInstalled` goes on and returns. -/
theorem isInstalled_stuck_bounded_wait (env : Env) (releaseName ns : String) (w : World)
    (rel : Nat → Release)
    (hinit : env.helmInit ns = none)
    (hstuck : ∀ n, env.getHelmRelease n releaseName ⟨ns⟩ = .ok (some (rel n)) ∧
      (rel n).Info.Status.Transitional = true) :
    ∃ n w1, isInstalled env releaseName ns w
        = some (w1, .ok (if n = 0 then none else some (rel (w.polls + n - 1)), ⟨ns⟩)) ∧
      w1.polls = w.polls + n ∧ w1.calls = w.calls ∧
      w1.now = w.now + pollsElapsed env w.polls n ∧
      env.timeoutHelm ≤ (w1.now : Int) - (w.now : Int) ∧
      (n ≠ 0 → ((n : Int) - 1) * (Second : Int) < env.timeoutHelm) ∧
      (n = 0 ↔ env.timeoutHelm ≤ 0) ∧
      (∀ req, ∃ res, ensureIsInstalled env releaseName ns req w = some res) := by
  obtain ⟨n, _, hloop, hup, hlast, hzero⟩ := isInstalledLoop_stuck env releaseName ⟨ns⟩ w.now
    env.timeoutHelm rel hstuck (env.timeoutHelm.toNat / Second + 1) w none
    (isInstalled_fuel_covers env.timeoutHelm w.now)
  have hloc : isInstalled env releaseName ns w
      = some (⟨w.now + pollsElapsed env w.polls n, w.polls + n, w.calls⟩,
          .ok (if n = 0 then none else some (rel (w.polls + n - 1)), ⟨ns⟩)) := by
    unfold isInstalled getHelmConfig
    simp only [hinit]
    exact hloop
  refine ⟨n, ⟨w.now + pollsElapsed env w.polls n, w.polls + n, w.calls⟩, hloc, rfl, rfl, rfl,
    hup, ?_, ?_, fun req => ensureIsInstalled_returns env releaseName ns req w _ _ hloc⟩
  · intro hn
    have := hlast hn
    simpa using this
  · rw [hzero]
    simp

/-- Witness for C8: a three second timeout and a release that stays in `PendingInstall`; the
loop makes three lookups and returns the release after three seconds. -/
theorem isInstalled_stuck_bounded_wait_witness :
    ∃ n w1, isInstalled stuckEnv "traffic-manager" "ambassador" world0
        = some (w1, .ok (if n = 0 then none
            else some ((fun _ => sampleRelease .PendingInstall) (world0.polls + n - 1)),
          ⟨"ambassador"⟩)) ∧
      w1.polls = world0.polls + n ∧ w1.calls = world0.calls ∧
      w1.now = world0.now + pollsElapsed stuckEnv world0.polls n ∧
      stuckEnv.timeoutHelm ≤ (w1.now : Int) - (world0.now : Int) ∧
      (n ≠ 0 → ((n : Int) - 1) * (Second : Int) < stuckEnv.timeoutHelm) ∧
      (n = 0 ↔ stuckEnv.timeoutHelm ≤ 0) ∧
      (∀ req, ∃ res,
        ensureIsInstalled stuckEnv "traffic-manager" "ambassador" req world0 = some res) :=
  isInstalled_stuck_bounded_wait stuckEnv "traffic-manager" "ambassador" world0
    (fun _ => sampleRelease .PendingInstall) (by rfl) (fun _ => ⟨by rfl, by rfl⟩)

end helm

namespace cli

/-! ### Creating an intercept -/

/-- The request that `EnsureState` sends is the same on a second call. -/
theorem createRequest_defaulted (info : interceptInfo) :
    createRequest (if info.name = "" then { info with name := info.agentName } else info)
      = createRequest info := by
  unfold createRequest
  by_cases h : info.name = ""
  · by_cases h2 : info.agentName = "" <;> simp [h, h2]
  · simp [h]

/-- C5: when `CreateIntercept` succeeds at transport level, `EnsureState` returns
`(false, nil)` for a reply with the code `ALREADY_EXISTS` and `(true, nil)` for a reply with
the code `UNSPECIFIED`, whatever the name and the error text.  Hence, against a remote that
answers `UNSPECIFIED` to the first create and `ALREADY_EXISTS` to the second, two calls of
`EnsureState` in a row return `(true, nil)` and then `(false, nil)`. -/
theorem EnsureState_created_then_exists {σ : Type} (env : Env σ) (st : interceptState σ) :
    (∀ remote txt,
      env.CreateIntercept st.remote (createRequest st.info)
        = (remote, .ok ⟨InterceptError.ALREADY_EXISTS, txt⟩) →
      (EnsureState env st).2 = (false, none)) ∧
    (∀ remote txt,
      env.CreateIntercept st.remote (createRequest st.info)
        = (remote, .ok ⟨InterceptError.UNSPECIFIED, txt⟩) →
      (EnsureState env st).2 = (true, none)) ∧
    (∀ remote1 remote2 txt1 txt2,
      env.CreateIntercept st.remote (createRequest st.info)
        = (remote1, .ok ⟨InterceptError.UNSPECIFIED, txt1⟩) →
      env.CreateIntercept remote1 (createRequest st.info)
        = (remote2, .ok ⟨InterceptError.ALREADY_EXISTS, txt2⟩) →
      (EnsureState env st).2 = (true, none) ∧
      (EnsureState env (EnsureState env st).1).2 = (false, none)) := by
  have hreq : ∀ s : interceptState σ,
      (⟨{ Name := (if s.info.name = "" then { s.info with name := s.info.agentName }
              else s.info).name,
          Agent := (if s.info.name = "" then { s.info with name := s.info.agentName }
              else s.info).agentName,
          Mechanism := "tcp", TargetHost := "127.0.0.1",
          TargetPort := int32 (if s.info.name = "" then { s.info with name := s.info.agentName }
              else s.info).port }⟩ : CreateInterceptRequest) = createRequest s.info := by
    intro s
    unfold createRequest
    by_cases h : s.info.name = "" <;> simp [h]
  have hexists : ∀ (s : interceptState σ) remote txt,
      env.CreateIntercept s.remote (createRequest s.info)
        = (remote, .ok ⟨InterceptError.ALREADY_EXISTS, txt⟩) →
      (EnsureState env s).2 = (false, none) := by
    intro s remote txt h
    unfold EnsureState
    simp only [hreq, h]
  have hcreated : ∀ (s : interceptState σ) remote txt,
      env.CreateIntercept s.remote (createRequest s.info)
        = (remote, .ok ⟨InterceptError.UNSPECIFIED, txt⟩) →
      (EnsureState env s).2 = (true, none) ∧ (EnsureState env s).1.remote = remote ∧
      (EnsureState env s).1.info
        = (if s.info.name = "" then { s.info with name := s.info.agentName } else s.info) := by
    intro s remote txt h
    unfold EnsureState
    simp only [hreq, h]
    exact ⟨trivial, trivial, trivial⟩
  refine ⟨hexists st, fun remote txt h => (hcreated st remote txt h).1, ?_⟩
  intro remote1 remote2 txt1 txt2 h1 h2
  obtain ⟨hres, hrem, hinfo⟩ := hcreated st remote1 txt1 h1
  refine ⟨hres, hexists _ remote2 txt2 ?_⟩
  rw [hrem, hinfo, createRequest_defaulted]
  exact h2

/-- Witness for C5: the name `web` against a fresh session of the remote `fakeManager`. -/
theorem EnsureState_created_then_exists_witness :
    (EnsureState fakeManager (freshState "web")).2 = (true, none) ∧
      (EnsureState fakeManager (EnsureState fakeManager (freshState "web")).1).2
        = (false, none) :=
  (EnsureState_created_then_exists fakeManager (freshState "web")).2.2 ["web"] ["web"] "" "web"
    (by rfl) (by rfl)

/-! ### Removing an intercept that does not exist -/

/-- A plain character is quoted as itself. -/
theorem appendEscapedRune_plain (unicodePrint : Char → Bool) (c : Char) (h : PlainChar c) :
    appendEscapedRune unicodePrint c = [c] := by
  obtain ⟨h1, h2, h3, h4⟩ := h
  unfold appendEscapedRune
  rw [if_neg (by simp [h3, h4])]
  have hp : IsPrint unicodePrint c = true := by
    unfold IsPrint
    rw [if_pos (by omega)]
    simp [h1, h2]
  rw [if_pos hp]

/-- A text of plain characters is quoted by putting it between double quotes. -/
theorem flatMap_appendEscapedRune_plain (unicodePrint : Char → Bool) :
    ∀ cs : List Char, (∀ c ∈ cs, PlainChar c) →
      cs.flatMap (appendEscapedRune unicodePrint) = cs := by
  intro cs
  induction cs with
  | nil => intro _; rfl
  | cons c cs ih =>
    intro h
    rw [List.flatMap_cons, appendEscapedRune_plain unicodePrint c (h c (List.mem_cons_self _ _)),
      ih (fun d hd => h d (List.mem_cons_of_mem _ hd))]
    rfl

/-- C6 (as amended): when the removal of the requested name `n` (the name of the intercept
with the surrounding white space trimmed) is answered with `NOT_FOUND` and the text `n`,
`DeactivateState` returns a non-nil error whose message is `Intercept named `, then `n` as `%q`
quotes it, then ` not found`; when `n` consists of printable ASCII characters other than the
double quote and the backslash, the message contains `n` literally. -/
theorem DeactivateState_not_found_message {σ : Type} (env : Env σ) (st : interceptState σ)
    (n : String) (remote : σ)
    (hname : TrimSpace st.info.name = n)
    (hreply : env.RemoveIntercept st.remote ⟨n⟩
      = (remote, .ok ⟨InterceptError.NOT_FOUND, n⟩)) :
    ∃ err, (DeactivateState env st).2 = some err ∧
      err.Error = "Intercept named " ++ Quote env.unicodePrint n ++ " not found" ∧
      ((∀ c ∈ n.data, PlainChar c) → Contains err.Error n) := by
  refine ⟨.new ("Intercept named " ++ Quote env.unicodePrint n ++ " not found"), ?_, rfl, ?_⟩
  · unfold DeactivateState
    simp only [hname, hreply]
    rfl
  · intro hplain
    unfold Contains
    simp only [GoError.Error, Quote, String.data_append,
      flatMap_appendEscapedRune_plain env.unicodePrint n.data hplain]
    exact ⟨"Intercept named ".data ++ [dquote], [dquote] ++ " not found".data, by simp⟩

/-- Witness for C6 (as amended): the name `ghost`, which the remote does not have. -/
theorem DeactivateState_not_found_message_witness :
    ∃ err, (DeactivateState fakeManager (freshState "ghost")).2 = some err ∧
      err.Error = "Intercept named " ++ Quote fakeManager.unicodePrint "ghost" ++ " not found" ∧
      ((∀ c ∈ "ghost".data, PlainChar c) → Contains err.Error "ghost") :=
  DeactivateState_not_found_message fakeManager (freshState "ghost") "ghost" [] (by rfl)
    (by rfl)

/-- C6 (as stated) fails: for the name `a"b`, answered with `NOT_FOUND` and the text `a"b`,
the message of the error is `Intercept named "a\"b" not found`, which does not contain `a"b`,
because `%q` puts a backslash before the double quote. -/
theorem DeactivateState_not_found_quote_escaped :
    TrimSpace (freshState "a\"b").info.name = "a\"b" ∧
      fakeManager.RemoveIntercept (freshState "a\"b").remote ⟨"a\"b"⟩
        = ([], .ok ⟨InterceptError.NOT_FOUND, "a\"b"⟩) ∧
      (DeactivateState fakeManager (freshState "a\"b")).2
        = some (.new "Intercept named \"a\\\"b\" not found") ∧
      ¬ Contains (GoError.new "Intercept named \"a\\\"b\" not found").Error "a\"b" := by
  refine ⟨by rfl, by rfl, by rfl, by decide⟩

end cli

namespace helm

/-! ### The values handed to install and upgrade -/

/-- The default values computed by `getValues` have distinct keys in every table. -/
theorem getValues_wellFormed (cfg : ClientConfig) : (getValues cfg).WellFormed := by
  unfold getValues
  simp only []
  repeat' split
  all_goals
    repeat' first
      | apply Table.WellFormed.set
      | simp [Table.WellFormed, Value.WellFormed, Table.get?]

/-- The calls of `uninstallExisting`. -/
theorem uninstallExisting_calls (env : Env) (helmConfig : Configuration)
    (releaseName ns : String) (w : World) :
    (uninstallExisting env helmConfig releaseName ns w).1.calls
      = w.calls ++ [.uninstall helmConfig releaseName] :=
  timedRun_calls env _ w

/-- The calls of `installNew`. -/
theorem installNew_calls (env : Env) (helmConfig : Configuration) (releaseName ns : String)
    (values : Table) (w : World) :
    (installNew env helmConfig releaseName ns values w).1.calls
      = w.calls ++ [.install helmConfig releaseName ns values] :=
  timedRun_calls env _ w

/-- The calls of `upgradeExisting`. -/
theorem upgradeExisting_calls (env : Env) (helmConfig : Configuration) (releaseName ns : String)
    (resetValues reuseValues : Bool) (values : Table) (w : World) :
    (upgradeExisting env helmConfig releaseName ns resetValues reuseValues values w).1.calls
      = w.calls ++ [.upgrade helmConfig releaseName ns resetValues reuseValues values] :=
  timedRun_calls env _ w

/-- The function `ensureIsInstalled` in three steps: locate, clean up, install or upgrade. -/
theorem ensureIsInstalled_eq (env : Env) (releaseName ns : String) (req : HelmRequest)
    (w : World) :
    ensureIsInstalled env releaseName ns req w
      = match isInstalled env releaseName ns w with
        | none => none
        | some (w, .error err) =>
          some (w, some (.wrap ("err detecting " ++ releaseName ++ ": " ++ err.Error) err))
        | some (w, .ok (existing, helmConfig)) =>
          match cleanupLeftover env helmConfig releaseName ns existing w with
          | (w, .error err) => some (w, some err)
          | (w, .ok existing) => installOrUpgrade env helmConfig releaseName ns req existing w := by
  unfold ensureIsInstalled cleanupLeftover installOrUpgrade
  rfl

/-- The clean-up issues at most the forced uninstall, which carries no values. -/
theorem cleanupLeftover_calls (env : Env) (helmConfig : Configuration) (releaseName ns : String)
    (existing : Option Release) (w : World) :
    ∃ cs, (cleanupLeftover env helmConfig releaseName ns existing w).1.calls = w.calls ++ cs ∧
      ∀ c ∈ cs, c.values? = none := by
  unfold cleanupLeftover
  cases existing with
  | none => exact ⟨[], by simp, by simp⟩
  | some rel =>
    by_cases hst : rel.Info.Status = Status.Deployed
    · exact ⟨[], by simp [hst], by simp⟩
    · refine ⟨[.uninstall helmConfig ns], ?_, by simp [Call.values?]⟩
      have hu := uninstallExisting_calls env helmConfig ns releaseName w
      simp only [ne_eq, hst, not_false_eq_true, if_true]
      cases hun : uninstallExisting env helmConfig ns releaseName w with
      | mk wu eu =>
        rw [hun] at hu
        cases eu <;> exact hu

/-- Every call of the last step that carries values carries the values resolved from the
request. -/
theorem installOrUpgrade_calls (env : Env) (helmConfig : Configuration) (releaseName ns : String)
    (req : HelmRequest) (existing : Option Release) (w w2 : World) (res : Option GoError)
    (h : installOrUpgrade env helmConfig releaseName ns req existing w = some (w2, res)) :
    ∃ cs, w2.calls = w.calls ++ cs ∧
      ∀ c ∈ cs, ∀ vals, c.values? = some vals → resolveValues env req = .ok vals := by
  unfold installOrUpgrade at h
  cases hv : resolveValues env req with
  | error err =>
    rw [hv] at h
    simp only [Option.some.injEq, Prod.mk.injEq] at h
    exact ⟨[], by rw [← h.1]; simp, by simp⟩
  | ok vals =>
    rw [hv] at h
    have hinst : ∀ x : World × Option GoError,
        x = installNew env helmConfig releaseName ns vals w → some x = some (w2, res) →
        ∃ cs, w2.calls = w.calls ++ cs ∧
          ∀ c ∈ cs, ∀ v, c.values? = some v → Except.ok (ε := GoError) vals = .ok v := by
      intro x hx hx2
      simp only [Option.some.injEq] at hx2
      have hcalls := installNew_calls env helmConfig releaseName ns vals w
      rw [← hx, hx2] at hcalls
      exact ⟨_, hcalls, by simp [Call.values?]⟩
    cases existing with
    | none =>
      simp only at h
      by_cases hr : releaseName = trafficManagerReleaseName
      · rw [if_pos hr] at h
        cases hi : env.importLegacy releaseName ns with
        | some e =>
          rw [hi] at h
          simp only [Option.some.injEq, Prod.mk.injEq] at h
          exact ⟨[], by rw [← h.1]; simp, by simp⟩
        | none =>
          rw [hi] at h
          exact hinst _ rfl h
      · rw [if_neg hr] at h
        exact hinst _ rfl h
    | some rel =>
      simp only at h
      by_cases ht : req.Type_ = HelmRequestType.UPGRADE
      · rw [if_pos ht] at h
        simp only [Option.some.injEq] at h
        have hcalls := upgradeExisting_calls env helmConfig releaseName ns req.ResetValues
          req.ReuseValues vals w
        rw [h] at hcalls
        exact ⟨_, hcalls, by simp [Call.values?]⟩
      · rw [if_neg ht] at h
        simp only [Option.some.injEq, Prod.mk.injEq] at h
        exact ⟨[], by rw [← h.1]; simp, by simp⟩

/-- Every call of `ensureIsInstalled` that carries values carries the values resolved from the
request. -/
theorem ensureIsInstalled_call_values (env : Env) (releaseName ns : String)
    (req : HelmRequest) (w w2 : World) (res : Option GoError)
    (h : ensureIsInstalled env releaseName ns req w = some (w2, res)) :
    ∃ cs, w2.calls = w.calls ++ cs ∧
      ∀ c ∈ cs, ∀ vals, c.values? = some vals → resolveValues env req = .ok vals := by
  rw [ensureIsInstalled_eq] at h
  cases hloc : isInstalled env releaseName ns w with
  | none => rw [hloc] at h; simp at h
  | some p =>
    obtain ⟨w1, loc⟩ := p
    have hc := isInstalled_calls env releaseName ns w w1 loc hloc
    rw [hloc] at h
    cases loc with
    | error e =>
      simp only [Option.some.injEq, Prod.mk.injEq] at h
      exact ⟨[], by rw [← h.1, hc]; simp, by simp⟩
    | ok pr =>
      obtain ⟨existing, helmConfig⟩ := pr
      simp only at h
      obtain ⟨cs0, hcs0, hnov⟩ := cleanupLeftover_calls env helmConfig releaseName ns existing w1
      cases hcl : cleanupLeftover env helmConfig releaseName ns existing w1 with
      | mk wc r =>
        rw [hcl] at h hcs0
        simp only at hcs0
        cases r with
        | error err =>
          simp only [Option.some.injEq, Prod.mk.injEq] at h
          refine ⟨cs0, by rw [← h.1, hcs0, hc], ?_⟩
          intro c hcmem vals hvals
          rw [hnov c hcmem] at hvals
          simp at hvals
        | ok existing2 =>
          simp only at h
          obtain ⟨cs1, hcs1, hval⟩ := installOrUpgrade_calls env helmConfig releaseName ns req
            existing2 wc w2 res h
          refine ⟨cs0 ++ cs1, by rw [hcs1, hcs0, hc, List.append_assoc], ?_⟩
          intro c hcmem vals hvals
          rcases List.mem_append.mp hcmem with h0 | h1
          · rw [hnov c h0] at hvals
            simp at hvals
          · exact hval c h1 vals hvals

/-- C9 (as amended): the values of every install or upgrade call that `ensureIsInstalled`
issues are the computed defaults when `ValuesJson` is empty; otherwise they are the merge
`CoalesceTables` of the decoded override over the defaults, in which, at every key path bound
in both, the value is the merge of the two values, that is the value of the override unless
both are tables (which are merged recursively), and every key path that is absent from the
override, and none of whose prefixes the override binds to a value that is not a table, holds
what the defaults hold. -/
theorem ensureIsInstalled_values_merged (env : Env) (releaseName ns : String)
    (req : HelmRequest) (w w2 : World) (res : Option GoError) (cs : List Call)
    (h : ensureIsInstalled env releaseName ns req w = some (w2, res))
    (hcs : w2.calls = w.calls ++ cs) (c : Call) (hc : c ∈ cs) (vals : Table)
    (hv : c.values? = some vals) :
    (req.ValuesJson.length = 0 → vals = getValues env.config) ∧
    (0 < req.ValuesJson.length →
      ∃ override, env.jsonUnmarshal req.ValuesJson = .ok override ∧
        vals = CoalesceTables override (getValues env.config) ∧
        (∀ p x y, (Value.table override).getPath p = some x →
          (Value.table (getValues env.config)).getPath p = some y →
          (Value.table vals).getPath p = some (coalesceValue x y) ∧
          (¬ (x.istable = true ∧ y.istable = true) →
            (Value.table vals).getPath p = some x)) ∧
        (∀ p, (Value.table override).getPath p = none →
          (∀ q s, q <+: p → (Value.table override).getPath q ≠ some (.leaf s)) →
          (Value.table vals).getPath p = (Value.table (getValues env.config)).getPath p)) := by
  obtain ⟨cs0, hcs0, hvals⟩ := ensureIsInstalled_call_values env releaseName ns req w w2 res h
  have hcseq : cs = cs0 := List.append_cancel_left (hcs.symm.trans hcs0)
  have hres := hvals c (hcseq ▸ hc) vals hv
  have hwf : (Value.table (getValues env.config)).WellFormed := by
    rw [Value.WellFormed]
    exact getValues_wellFormed env.config
  unfold resolveValues at hres
  constructor
  · intro h0
    rw [if_neg (by omega)] at hres
    simp only [Except.ok.injEq] at hres
    exact hres.symm
  · intro hpos
    rw [if_pos hpos] at hres
    cases hj : env.jsonUnmarshal req.ValuesJson with
    | error e => rw [hj] at hres; simp at hres
    | ok override =>
      rw [hj] at hres
      simp only [Except.ok.injEq] at hres
      refine ⟨override, rfl, hres.symm, ?_, ?_⟩
      · intro p x y hx hy
        have hm := coalesceValue_getPath_both p _ _ x y hwf hx hy
        rw [coalesceValue_table, hres] at hm
        refine ⟨hm, fun hnb => ?_⟩
        rw [hm, coalesceValue_of_not_both x y hnb]
      · intro p hx hpre
        have hm := coalesceValue_getPath_absent p _ _ hwf hx hpre
        rw [coalesceValue_table, hres] at hm
        exact hm

/-- Witness for C9 (as amended): `traffic-manager` installed afresh in `ambassador` with the
override values `{"image":"x"}`. -/
theorem ensureIsInstalled_values_merged_witness :
    (overrideRequest.ValuesJson.length = 0 →
      CoalesceTables imageOverride (getValues sampleConfig) = getValues absentEnv.config) ∧
    (0 < overrideRequest.ValuesJson.length →
      ∃ override, absentEnv.jsonUnmarshal overrideRequest.ValuesJson = .ok override ∧
        CoalesceTables imageOverride (getValues sampleConfig)
          = CoalesceTables override (getValues absentEnv.config) ∧
        (∀ p x y, (Value.table override).getPath p = some x →
          (Value.table (getValues absentEnv.config)).getPath p = some y →
          (Value.table (CoalesceTables imageOverride (getValues sampleConfig))).getPath p
            = some (coalesceValue x y) ∧
          (¬ (x.istable = true ∧ y.istable = true) →
            (Value.table (CoalesceTables imageOverride (getValues sampleConfig))).getPath p
              = some x)) ∧
        (∀ p, (Value.table override).getPath p = none →
          (∀ q s, q <+: p → (Value.table override).getPath q ≠ some (.leaf s)) →
          (Value.table (CoalesceTables imageOverride (getValues sampleConfig))).getPath p
            = (Value.table (getValues absentEnv.config)).getPath p)) :=
  ensureIsInstalled_values_merged absentEnv "traffic-manager" "ambassador" overrideRequest
    world0
    ⟨0, 1, [.install ⟨"ambassador"⟩ "traffic-manager" "ambassador"
      (CoalesceTables imageOverride (getValues sampleConfig))]⟩
    none
    [.install ⟨"ambassador"⟩ "traffic-manager" "ambassador"
      (CoalesceTables imageOverride (getValues sampleConfig))]
    (by rfl) (by rfl) _ (List.mem_singleton.mpr rfl) _ (by rfl)

/-- C9 (as stated) fails: with the override values `{"image":"x"}` the key path `image.tag` is
bound by the defaults and absent from the override, yet the values handed to the install call
do not hold it, because the override binds `image` to a value that is not a table. -/
theorem ensureIsInstalled_override_scalar_hides_default :
    absentEnv.jsonUnmarshal overrideRequest.ValuesJson = .ok imageOverride ∧
      ensureIsInstalled absentEnv "traffic-manager" "ambassador" overrideRequest world0
        = some (⟨0, 1, [.install ⟨"ambassador"⟩ "traffic-manager" "ambassador"
            (.cons "image" (.leaf (.str "x"))
              (.cons "systemaHost" (.leaf (.str "app.getambassador.io"))
                (.cons "systemaPort" (.leaf (.str "443")) .nil)))]⟩, none) ∧
      (Value.table (getValues absentEnv.config)).getPath ["image", "tag"]
        = some (.leaf (.str "2.9.0")) ∧
      (Value.table imageOverride).getPath ["image", "tag"] = none ∧
      (Value.table (.cons "image" (.leaf (.str "x"))
          (.cons "systemaHost" (.leaf (.str "app.getambassador.io"))
            (.cons "systemaPort" (.leaf (.str "443")) .nil)))).getPath ["image", "tag"]
        = none := by
  refine ⟨by rfl, by rfl, by rfl, by rfl, by rfl⟩

end helm

namespace cli

/-! ### The message for an ambiguous match -/

/-- The lines appended for the matches from position `idx` on are the candidate lines numbered
from `idx + 1` in list order. -/
theorem matchLines_eq_lines : ∀ (agents : List AgentInfo) (idx : Nat),
    matchLines idx agents
      = ((List.enumFrom (idx + 1) agents).map (fun p => candidateLine p.1 p.2)).foldr
          (fun line acc => line ++ acc) "" := by
  intro agents
  induction agents with
  | nil => intro idx; rfl
  | cons m rest ih =>
    intro idx
    rw [matchLines, ih (idx + 1)]
    simp only [List.enumFrom_cons, List.map_cons, List.foldr_cons, candidateLine]

/-- C11: for the code `AMBIGUOUS_MATCH`, when the payload decodes to a list of candidates the
message is the header followed by one line per candidate, numbered from 1 in list order, each
line showing the name and the host of its candidate as `<name> on host <host>`; for two
candidates the message is the header, the line `   1: ` of the first and the line `   2: ` of
the second, so it contains both names, the first before the second.  When the payload does
not decode, the message is `Unable to unmarshal JSON: ` followed by the text of the decoding
error; `interceptMessage` being a total function, nothing is raised. -/
theorem interceptMessage_ambiguous_match {σ : Type} (env : Env σ) (txt : String) :
    (∀ agents, env.unmarshalMatches txt = .ok agents →
      interceptMessage env InterceptError.AMBIGUOUS_MATCH txt
        = "Found more than one possible match:" ++
            ((List.enumFrom 1 agents).map (fun p => candidateLine p.1 p.2)).foldr
              (fun line acc => line ++ acc) "") ∧
    (∀ a b, env.unmarshalMatches txt = .ok [a, b] →
      interceptMessage env InterceptError.AMBIGUOUS_MATCH txt
        = "Found more than one possible match:" ++
            ("\n" ++ "   1" ++ ": " ++ a.Name ++ " on host " ++ a.Hostname) ++
            ("\n" ++ "   2" ++ ": " ++ b.Name ++ " on host " ++ b.Hostname) ∧
      ∃ pre mid post,
        interceptMessage env InterceptError.AMBIGUOUS_MATCH txt
          = pre ++ a.Name ++ mid ++ b.Name ++ post) ∧
    (∀ err, env.unmarshalMatches txt = .error err →
      interceptMessage env InterceptError.AMBIGUOUS_MATCH txt
        = "Unable to unmarshal JSON: " ++ err.Error) := by
  refine ⟨?_, ?_, ?_⟩
  · intro agents h
    simp only [interceptMessage, h]
    rw [matchLines_eq_lines]
  · intro a b h
    have h1 : format4d 1 = "   1" := by decide
    have h2 : format4d 2 = "   2" := by decide
    have hmsg : interceptMessage env InterceptError.AMBIGUOUS_MATCH txt
        = "Found more than one possible match:" ++
            ("\n" ++ "   1" ++ ": " ++ a.Name ++ " on host " ++ a.Hostname) ++
            ("\n" ++ "   2" ++ ": " ++ b.Name ++ " on host " ++ b.Hostname) := by
      simp only [interceptMessage, h, matchLines, h1, h2, String.append_assoc,
        String.append_empty]
    refine ⟨hmsg, "Found more than one possible match:" ++ "\n" ++ "   1" ++ ": ",
      " on host " ++ a.Hostname ++ "\n" ++ "   2" ++ ": ", " on host " ++ b.Hostname, ?_⟩
    rw [hmsg]
    simp only [String.append_assoc]
  · intro err h
    simp only [interceptMessage, h]

/-- Witness for C11: the payload `twoCandidatesJson`, which decodes to `echo` on `host-a` and
`echo-2` on `host-b`. -/
theorem interceptMessage_ambiguous_match_witness :
    interceptMessage candidatesEnv InterceptError.AMBIGUOUS_MATCH twoCandidatesJson
        = "Found more than one possible match:" ++
            ("\n" ++ "   1" ++ ": " ++ "echo" ++ " on host " ++ "host-a") ++
            ("\n" ++ "   2" ++ ": " ++ "echo-2" ++ " on host " ++ "host-b") ∧
      ∃ pre mid post,
        interceptMessage candidatesEnv InterceptError.AMBIGUOUS_MATCH twoCandidatesJson
          = pre ++ "echo" ++ mid ++ "echo-2" ++ post :=
  (interceptMessage_ambiguous_match candidatesEnv twoCandidatesJson).2.1
    ⟨"echo", "host-a"⟩ ⟨"echo-2", "host-b"⟩ (by rfl)

end cli

namespace helm

/-! ### The agent image in the default values -/

/-- The parts of a split: the text before the first separator, then the parts of what follows
that separator, if there is one. -/
theorem splitChars_eq (sep : Char) : ∀ cs : List Char,
    splitChars sep cs
      = cs.takeWhile (fun c => c ≠ sep) ::
          (match cs.dropWhile (fun c => c ≠ sep) with
            | [] => []
            | _ :: rest => splitChars sep rest) := by
  intro cs
  induction cs with
  | nil => rfl
  | cons c cs ih =>
    by_cases h : c = sep
    · simp [splitChars, h]
    · rw [splitChars, if_neg h, ih]
      simp [h]

/-- The name that `getValues` computes for the agent image `w` is the text before the first
colon. -/
theorem agentImage_name (w : String) :
    (if (Split w ':').length > 1 then (Split w ':').getD 0 "" else w) = beforeFirstColon w := by
  unfold Split beforeFirstColon
  rw [splitChars_eq]
  cases h : w.data.dropWhile (fun c => c ≠ ':') with
  | nil =>
    have htw := List.takeWhile_append_dropWhile (fun c => decide (c ≠ ':')) w.data
    rw [h, List.append_nil] at htw
    rw [if_neg (by simp), htw]
  | cons d rest =>
    simp only []
    rw [splitChars_eq]
    simp

/-- The tag that `getValues` computes for the agent image `w` is the text between the first and
the second colon. -/
theorem agentImage_tag (w : String) :
    (if (Split w ':').length > 1 then (Split w ':').getD 1 "" else "")
      = betweenFirstAndSecondColon w := by
  unfold Split betweenFirstAndSecondColon
  rw [splitChars_eq]
  cases h : w.data.dropWhile (fun c => c ≠ ':') with
  | nil => simp
  | cons d rest =>
    simp only []
    rw [splitChars_eq]
    simp

/-- A text with no colon is the text before its first colon, and nothing follows. -/
theorem colon_free_parts (w : String) (h : ':' ∉ w.data) :
    beforeFirstColon w = w ∧ betweenFirstAndSecondColon w = "" := by
  have hall : ∀ c ∈ w.data, decide (c ≠ ':') = true := by
    intro c hc
    simp only [ne_eq, decide_not, Bool.not_eq_true', decide_eq_false_iff_not]
    intro hcc
    exact h (hcc ▸ hc)
  have htw : w.data.takeWhile (fun c => decide (c ≠ ':')) = w.data :=
    List.takeWhile_eq_self_iff.mpr hall
  have hdw : w.data.dropWhile (fun c => decide (c ≠ ':')) = [] :=
    List.dropWhile_eq_nil_iff.mpr hall
  unfold beforeFirstColon betweenFirstAndSecondColon
  rw [htw, hdw]
  exact ⟨rfl, rfl⟩

/-- A text with exactly one colon is the text before the colon, the colon, and the text after
it. -/
theorem one_colon_parts (w : String) (h : w.data.count ':' = 1) :
    beforeFirstColon w ++ ":" ++ betweenFirstAndSecondColon w = w := by
  have happ := List.takeWhile_append_dropWhile (fun c => decide (c ≠ ':')) w.data
  have hnotin : ':' ∉ w.data.takeWhile (fun c => decide (c ≠ ':')) := by
    intro hmem
    have := List.mem_takeWhile_imp hmem
    simp at this
  cases hd : w.data.dropWhile (fun c => decide (c ≠ ':')) with
  | nil =>
    rw [hd, List.append_nil] at happ
    rw [happ] at hnotin
    have := List.count_eq_zero_of_not_mem hnotin
    omega
  | cons d rest =>
    have hhead : d = ':' := by
      have := List.head_dropWhile_not (fun c => decide (c ≠ ':')) w.data (by rw [hd]; simp)
      simp only [hd, List.head_cons] at this
      simpa using this
    subst hhead
    rw [hd] at happ
    have hcount : (w.data.takeWhile (fun c => decide (c ≠ ':'))).count ':' + 1
        + rest.count ':' = 1 := by
      have := congrArg (List.count ':') happ
      rw [List.count_append, List.count_cons_self, h] at this
      omega
    have hrest : ':' ∉ rest := by
      intro hmem
      have := List.count_pos_iff.mpr hmem
      omega
    have hall : ∀ c ∈ rest, decide (c ≠ ':') = true := by
      intro c hc
      simp only [ne_eq, decide_not, Bool.not_eq_true', decide_eq_false_iff_not]
      intro hcc
      exact hrest (hcc ▸ hc)
    have htw : rest.takeWhile (fun c => decide (c ≠ ':')) = rest :=
      List.takeWhile_eq_self_iff.mpr hall
    have e1 : (beforeFirstColon w).data = w.data.takeWhile (fun c => decide (c ≠ ':')) := rfl
    have e2 : (betweenFirstAndSecondColon w).data = rest := by
      show List.takeWhile (fun c => decide (c ≠ ':'))
        (List.drop 1 (List.dropWhile (fun c => decide (c ≠ ':')) w.data)) = rest
      rw [hd]
      exact htw
    apply String.ext
    rw [String.data_append, String.data_append, e1, e2]
    conv_rhs => rw [← happ]
    simp

/-- The default values for a configuration with an agent image, with the name and the tag of
the image written as the two texts around the first colon. -/
theorem getValues_of_agentImage (cfg : ClientConfig) (hw : cfg.AgentImage ≠ "") :
    getValues cfg
      = (fun (values : Table) =>
          if cfg.TelepresenceAPIPort ≠ 0 then
            values.set "telepresenceAPI"
              (.table (.cons "port" (.leaf (.int cfg.TelepresenceAPIPort)) .nil))
          else values)
        ((fun (values : Table) =>
          match cfg.AppProtocolStrategy with
          | some apc =>
            values.set "agentInjector"
              (.table (.cons "appProtocolStrategy" (.leaf (.str apc)) .nil))
          | none => values)
        (((fun (values : Table) =>
          match cfg.MaxReceiveSize with
          | some size =>
            values.set "grpc" (.table (.cons "maxReceiveSize" (.leaf (.str size)) .nil))
          | none => values)
          (.cons "image" (.table
              (.cons "registry" (.leaf (.str cfg.Registry))
                (.cons "tag" (.leaf (.str (TrimPrefix cfg.Version "v"))) .nil)))
            (.cons "systemaHost" (.leaf (.str cfg.SystemaHost))
              (.cons "systemaPort" (.leaf (.str cfg.SystemaPort)) .nil)))).set "agent"
          (.table (.cons "image" (.table
            ((fun (image : Table) =>
              if cfg.WebhookRegistry ≠ "" then
                image.set "registry" (.leaf (.str cfg.WebhookRegistry))
              else image)
            ((Table.nil.set "name" (.leaf (.str (beforeFirstColon cfg.AgentImage)))).set "tag"
              (.leaf (.str (betweenFirstAndSecondColon cfg.AgentImage)))))) .nil)))) := by
  unfold getValues
  simp only [agentImage_name, agentImage_tag, hw, ne_eq, not_false_eq_true, true_or, if_true]

/-- C12: for every configured agent image `w` that is not empty, `getValues` binds
`agent.image.name` to the text of `w` before its first colon and `agent.image.tag` to the text
between its first and its second colon.  So the name is `w` and the tag is empty when `w` has
no colon, and name, colon and tag make up `w` again when `w` has exactly one colon.  Nothing
else of `w` reaches the values: two agent images with the same two texts give the same
values. -/
theorem getValues_agent_image (cfg : ClientConfig) (hw : cfg.AgentImage ≠ "") :
    (Value.table (getValues cfg)).getPath ["agent", "image", "name"]
        = some (.leaf (.str (beforeFirstColon cfg.AgentImage))) ∧
      (Value.table (getValues cfg)).getPath ["agent", "image", "tag"]
        = some (.leaf (.str (betweenFirstAndSecondColon cfg.AgentImage))) ∧
      (':' ∉ cfg.AgentImage.data →
        beforeFirstColon cfg.AgentImage = cfg.AgentImage ∧
        betweenFirstAndSecondColon cfg.AgentImage = "") ∧
      (cfg.AgentImage.data.count ':' = 1 →
        beforeFirstColon cfg.AgentImage ++ ":" ++ betweenFirstAndSecondColon cfg.AgentImage
          = cfg.AgentImage) ∧
      (∀ w2 : String, w2 ≠ "" →
        beforeFirstColon w2 = beforeFirstColon cfg.AgentImage →
        betweenFirstAndSecondColon w2 = betweenFirstAndSecondColon cfg.AgentImage →
        getValues { cfg with AgentImage := w2 } = getValues cfg) := by
  refine ⟨?_, ?_, colon_free_parts cfg.AgentImage, one_colon_parts cfg.AgentImage, ?_⟩
  · rw [getValues_of_agentImage cfg hw]
    cases cfg.MaxReceiveSize <;> cases cfg.AppProtocolStrategy <;>
      by_cases hp : cfg.TelepresenceAPIPort = 0 <;>
      by_cases hr : cfg.WebhookRegistry = "" <;>
      simp [hp, hr, Value.getPath, Table.get?, Table.set]
  · rw [getValues_of_agentImage cfg hw]
    cases cfg.MaxReceiveSize <;> cases cfg.AppProtocolStrategy <;>
      by_cases hp : cfg.TelepresenceAPIPort = 0 <;>
      by_cases hr : cfg.WebhookRegistry = "" <;>
      simp [hp, hr, Value.getPath, Table.get?, Table.set]
  · intro w2 hw2 hname htag
    rw [getValues_of_agentImage cfg hw,
      getValues_of_agentImage { cfg with AgentImage := w2 } hw2]
    simp only [hname, htag]

/-- Witness for C12: the agent image `docker.io/datawire/tel2:2.9.0`, which has one colon. -/
theorem getValues_agent_image_witness :
    (Value.table (getValues agentImageConfig)).getPath ["agent", "image", "name"]
        = some (.leaf (.str (beforeFirstColon agentImageConfig.AgentImage))) ∧
      (Value.table (getValues agentImageConfig)).getPath ["agent", "image", "tag"]
        = some (.leaf (.str (betweenFirstAndSecondColon agentImageConfig.AgentImage))) ∧
      (':' ∉ agentImageConfig.AgentImage.data →
        beforeFirstColon agentImageConfig.AgentImage = agentImageConfig.AgentImage ∧
        betweenFirstAndSecondColon agentImageConfig.AgentImage = "") ∧
      (agentImageConfig.AgentImage.data.count ':' = 1 →
        beforeFirstColon agentImageConfig.AgentImage ++ ":" ++
            betweenFirstAndSecondColon agentImageConfig.AgentImage
          = agentImageConfig.AgentImage) ∧
      (∀ w2 : String, w2 ≠ "" →
        beforeFirstColon w2 = beforeFirstColon agentImageConfig.AgentImage →
        betweenFirstAndSecondColon w2
          = betweenFirstAndSecondColon agentImageConfig.AgentImage →
        getValues { agentImageConfig with AgentImage := w2 } = getValues agentImageConfig) :=
  getValues_agent_image agentImageConfig (by decide)

/-- The values computed for the agent image `docker.io/datawire/tel2:2.9.0`: the name is
`docker.io/datawire/tel2` and the tag is `2.9.0`; for `localhost:5000/tel2:2.9.0`, which has
two colons, the name is `localhost` and the tag is `5000/tel2`. -/
theorem getValues_agent_image_samples :
    (Value.table (getValues agentImageConfig)).getPath ["agent", "image", "name"]
        = some (.leaf (.str "docker.io/datawire/tel2")) ∧
      (Value.table (getValues agentImageConfig)).getPath ["agent", "image", "tag"]
        = some (.leaf (.str "2.9.0")) ∧
      (Value.table (getValues portImageConfig)).getPath ["agent", "image", "name"]
        = some (.leaf (.str "localhost")) ∧
      (Value.table (getValues portImageConfig)).getPath ["agent", "image", "tag"]
        = some (.leaf (.str "5000/tel2")) := by
  refine ⟨by rfl, by rfl, by rfl, by rfl⟩

end helm

end Telepresence
